import Mathlib

/-!
Verification of the agent-task orchestration engine of
`src/backend/agent-service/main.py` (NeoAI IDE agent service).

The Python source is shallowly embedded as follows.

* `AgentStatus`, `StepStatus`, `AgentType` mirror the three enums.
* `AgentStep` / `AgentTask` mirror the pydantic models.  Timestamp fields
  (`created_at`, `started_at`, `completed_at`, `duration`) are elided: no
  claim mentions them and they do not feed back into control flow.
  `output_data` keeps only the numeric entries (the ones `finalize_task`
  reads with `.get(key, 0)`); `result` is `none` for the empty dict and
  `some r` once `finalize_task` populates it.
* External collaborators (Redis, the AI service, the project service, the
  WebSocket sink) are an oracle `Env`: the planner response, the outcome of
  each executor invocation (indexed by step index and attempt number), the
  outcome of each `redis.setex` call and of each WebSocket delivery.
* Stateful execution is explicit state passing over `St` (the in-memory
  task object plus a trace of externally visible events).  A raised Python
  exception is `some msg` in the `St × Option String` result.
* The Redis store holds one snapshot per task id; `setex` overwrites, so the
  store after a sequence of writes is modelled by `storeAfterWrites`.
-/

namespace AgentService

/-- `AgentStatus` enum of the source (main.py lines 44-50). -/
inductive AgentStatus
  | pending
  | running
  | completed
  | failed
  | cancelled
  | paused
  deriving DecidableEq, Repr

/-- `StepStatus` enum of the source (main.py lines 52-57). -/
inductive StepStatus
  | pending
  | running
  | completed
  | failed
  | skipped
  deriving DecidableEq, Repr

/-- `AgentType` enum of the source (main.py lines 59-67). -/
inductive AgentType
  | code_generator
  | feature_implementer
  | bug_fixer
  | refactorer
  | test_generator
  | documentation_writer
  | deployment_manager
  | code_reviewer
  deriving DecidableEq, Repr

/-- `AgentStep` pydantic model (main.py lines 69-83); timestamps elided,
`output_data` restricted to its numeric entries. -/
structure AgentStep where
  id : String
  name : String
  description : String
  type : String
  status : StepStatus := StepStatus.pending
  input_data : List (String × String) := []
  output_data : List (String × Nat) := []
  error_message : Option String := none
  dependencies : List String := []
  retry_count : Nat := 0
  max_retries : Nat := 3
  deriving DecidableEq, Repr

/-- The result dict built by `FeatureImplementerAgent.finalize_task`
(main.py lines 661-674). -/
structure FinalResult where
  feature_implemented : Bool
  files_created : Nat
  files_modified : Nat
  test_files_created : Nat
  doc_files_updated : Nat
  summary : String
  next_steps : List String
  deriving DecidableEq, Repr

/-- `AgentTask` pydantic model (main.py lines 85-102); timestamps elided,
`result = none` stands for the initial empty dict. -/
structure AgentTask where
  id : String
  project_id : String
  user_id : String
  agent_type : AgentType
  title : String
  description : String
  status : AgentStatus := AgentStatus.pending
  progress : ℚ := 0
  steps : List AgentStep := []
  context : List (String × String) := []
  config : List (String × String) := []
  result : Option FinalResult := none
  error_message : Option String := none
  deriving DecidableEq, Repr

/-- One step skeleton of a successfully parsed planner response
(the dicts read at main.py lines 392-401). -/
structure PlanStep where
  name : String
  description : String
  type : String
  dependencies : List String := []
  deriving DecidableEq, Repr

/-- Outcome of the planner invocation inside `generate_plan`:
either some call (`get_project_files` / `call_ai_service`) raises, or the
AI service returns text that parses to a step list (`some ps`) or fails to
parse (`none`, the `json.loads` except branch at main.py line 402). -/
inductive PlanOutcome
  | err (msg : String)
  | response (parsed : Option (List PlanStep))
  deriving Repr

/-- Outcome of one executor invocation for a known step type: either the
step logic completes and leaves `out` in `output_data`, or it raises. -/
inductive ExecOutcome
  | ok (out : List (String × Nat))
  | err (msg : String)
  deriving Repr

/-- Oracle for all external collaborators.  `exec i a` is the outcome of the
executor invocation for step index `i` on attempt `a` (the step's
`retry_count` at call time); `saveOutcome n` is the outcome of the `n`-th
`redis.setex` call (`none` = success); `notifyDelivered n` is whether the
`n`-th WebSocket delivery succeeds. -/
structure Env where
  plan : PlanOutcome
  exec : Nat → Nat → ExecOutcome
  saveOutcome : Nat → Option String
  notifyDelivered : Nat → Bool

/-- Externally visible events of a run, in order: successful store writes,
broadcast attempts, executor invocations, retry backoff sleeps. -/
inductive Ev
  | save (snap : AgentTask)
  | broadcast (snap : AgentTask) (delivered : Bool)
  | invoke (stepIdx attempt : Nat)
  | sleep (secs : Nat)
  deriving DecidableEq, Repr

/-- In-memory engine state: the working `AgentTask` plus counters for store
and broadcast calls and the event trace. -/
structure St where
  task : AgentTask
  nsave : Nat
  nbc : Nat
  trace : List Ev
  deriving Repr

/-- Placeholder for out-of-range step access (never reached on the paths the
engine takes, since it always indexes within `task.steps`). -/
def dummyStep : AgentStep :=
  { id := "", name := "", description := "", type := "" }

/-- The step at index `i` of the in-memory task. -/
def stepOf (s : St) (i : Nat) : AgentStep :=
  s.task.steps.getD i dummyStep

/-- In-place mutation of the step object at index `i` (Python mutates the
`AgentStep` aliased inside `task.steps`). -/
def modStep (s : St) (i : Nat) (f : AgentStep → AgentStep) : St :=
  { s with task :=
    { s.task with steps := s.task.steps.set i (f (s.task.steps.getD i dummyStep)) } }

/-- In-place mutation of task-level fields. -/
def modTask (s : St) (f : AgentTask → AgentTask) : St :=
  { s with task := f s.task }

/-- Append an event to the trace. -/
def emit (s : St) (e : Ev) : St :=
  { s with trace := s.trace ++ [e] }

/-- `BaseAgent.save_task` (main.py lines 274-281): one `redis.setex` of the
whole serialized in-memory task.  There is no try/except around it, so a
failing setex raises (`some m`). -/
def save_task (env : Env) (s : St) : St × Option String :=
  match env.saveOutcome s.nsave with
  | none => ({ s with nsave := s.nsave + 1, trace := s.trace ++ [Ev.save s.task] }, none)
  | some m => ({ s with nsave := s.nsave + 1 }, some m)

/-- `BaseAgent.broadcast_update` (main.py lines 283-295): fire-and-forget
WebSocket send; the inner try/except swallows delivery failures, so this
never raises.  An absent connection is a non-delivered broadcast. -/
def broadcast_update (env : Env) (s : St) : St :=
  { s with nbc := s.nbc + 1,
           trace := s.trace ++ [Ev.broadcast s.task (env.notifyDelivered s.nbc)] }

/-- The step types with an executor branch in
`FeatureImplementerAgent.execute_step_logic` (main.py lines 440-449). -/
def knownStepTypes : List String :=
  ["analysis", "design", "implementation", "testing", "documentation"]

/-- `FeatureImplementerAgent.execute_step_logic` (main.py lines 438-451):
dispatch on `step.type`; a known type runs its executor (external work via
the oracle, which may raise); an unknown type only logs a warning and
returns (no-op success). -/
def execute_step_logic (env : Env) (i : Nat) (s : St) : St × Option String :=
  let st := stepOf s i
  if knownStepTypes.contains st.type then
    match env.exec i st.retry_count with
    | ExecOutcome.ok out =>
        (modStep (emit s (Ev.invoke i st.retry_count)) i
          (fun st => { st with output_data := out }), none)
    | ExecOutcome.err m =>
        (emit s (Ev.invoke i st.retry_count), some m)
  else
    (s, none)

/-- The try block of `BaseAgent.execute_step` (main.py lines 226-241):
mark the step RUNNING, persist, broadcast, run the step logic, mark the
step COMPLETED, persist, broadcast.  Any raise inside (including a failing
save) falls through to the except handler of `execute_step`. -/
def stepTryBody (env : Env) (i : Nat) (s : St) : St × Option String :=
  let s1 := modStep s i (fun st => { st with status := StepStatus.running })
  match save_task env s1 with
  | (s2, some m) => (s2, some m)
  | (s2, none) =>
    let s3 := broadcast_update env s2
    match execute_step_logic env i s3 with
    | (s4, some m) => (s4, some m)
    | (s4, none) =>
      let s5 := modStep s4 i (fun st => { st with status := StepStatus.completed })
      match save_task env s5 with
      | (s6, some m) => (s6, some m)
      | (s6, none) => (broadcast_update env s6, none)

/-- `BaseAgent.execute_step` (main.py lines 224-264).  The except handler
marks the step FAILED; if `retry_count < max_retries` it increments the
counter, resets the step to PENDING, sleeps `2 ** retry_count` and recurses;
otherwise it marks the task FAILED with a message naming the step, persists,
broadcasts and re-raises.  The `fuel` argument bounds the recursion; callers
pass `max_retries + 1 - retry_count`, which the retry guard never exhausts. -/
def execute_step (env : Env) (i : Nat) : Nat → St → St × Option String
  | 0, s => (s, some ("retry recursion limit"))
  | fuel+1, s =>
    match stepTryBody env i s with
    | (s1, none) => (s1, none)
    | (s1, some e) =>
      let s2 := modStep s1 i
        (fun st => { st with status := StepStatus.failed, error_message := some e })
      let st := stepOf s2 i
      if st.retry_count < st.max_retries then
        let s3 := modStep s2 i (fun st =>
          { st with retry_count := st.retry_count + 1,
                    status := StepStatus.pending, error_message := none })
        let s4 := emit s3 (Ev.sleep (2 ^ (st.retry_count + 1)))
        execute_step env i fuel s4
      else
        let s3 := modTask s2 (fun t =>
          { t with status := AgentStatus.failed,
                   error_message := some ("Step " ++ st.name ++ " failed: " ++ e) })
        match save_task env s3 with
        | (s4, some m) => (s4, some m)
        | (s4, none) => (broadcast_update env s4, some e)

/-- One step built from a parsed planner response entry
(main.py lines 392-401): id `step_<index>`, defaults for the rest. -/
def mkPlannedStep (i : Nat) (p : PlanStep) : AgentStep :=
  { id := "step_" ++ toString i, name := p.name, description := p.description,
    type := p.type, dependencies := p.dependencies }

/-- The built-in fallback plan of `FeatureImplementerAgent.generate_plan`
(main.py lines 405-436). -/
def defaultPlan : List AgentStep :=
  [ { id := "step_0", name := "Analyze Requirements",
      description := "Analyze feature requirements and existing codebase",
      type := "analysis" },
    { id := "step_1", name := "Design Implementation",
      description := "Design the implementation approach",
      type := "design" },
    { id := "step_2", name := "Implement Feature",
      description := "Implement the feature code",
      type := "implementation" },
    { id := "step_3", name := "Generate Tests",
      description := "Generate unit tests for the feature",
      type := "testing" },
    { id := "step_4", name := "Update Documentation",
      description := "Update relevant documentation",
      type := "documentation" } ]

/-- `FeatureImplementerAgent.generate_plan` (main.py lines 365-436): a raise
from `get_project_files` or `call_ai_service` escapes (only the JSON parse
is inside the try); a parse failure falls back to `defaultPlan`; a parsed
response becomes the step list. -/
def generate_plan (env : Env) (s : St) : St × Option String :=
  match env.plan with
  | PlanOutcome.err m => (s, some m)
  | PlanOutcome.response none =>
      (modTask s (fun t => { t with steps := defaultPlan }), none)
  | PlanOutcome.response (some ps) =>
      (modTask s (fun t => { t with steps := ps.enum.map (fun ip => mkPlannedStep ip.1 ip.2) }),
       none)

/-- `sum(step.output_data.get(key, 0) for step in self.task.steps)`. -/
def sumOutput (t : AgentTask) (k : String) : Nat :=
  (t.steps.map (fun st => (st.output_data.lookup k).getD 0)).sum

/-- `FeatureImplementerAgent.finalize_task` (main.py lines 653-674):
aggregates step outputs into the task's result dict. -/
def finalize_task (s : St) : St :=
  modTask s (fun t =>
    { t with result := some (
      { feature_implemented := true,
        files_created := sumOutput t ("files_created"),
        files_modified := sumOutput t ("files_modified"),
        test_files_created := sumOutput t ("test_files_created"),
        doc_files_updated := sumOutput t ("doc_files_updated"),
        summary := "Successfully implemented feature: " ++ t.description,
        next_steps := ["Review generated code", "Run tests to verify functionality",
                       "Test the feature manually", "Deploy to staging environment"] }) })

/-- `((i + 1) / total) * 100` as a rational.  Written with `mkRat` (which the
kernel can evaluate; Batteries marks `Rat.mul` and `Rat.inv` irreducible) and
proved equal to the literal source formula in `progressOf_eq_div` below. -/
def progressOf (i n : Nat) : ℚ :=
  mkRat (((i + 1) * 100 : Nat)) n

/-- The step loop of `BaseAgent.execute` (main.py lines 186-196), iterating
`rem` remaining steps of `n` total (current index `i = n - rem`):
run the step, set `progress = (i + 1) / n * 100`, persist, then break if the
in-memory status is CANCELLED. -/
def executeLoop (env : Env) (n : Nat) : Nat → St → St × Option String
  | 0, s => (s, none)
  | rem+1, s =>
    let i := n - (rem + 1)
    let st := stepOf s i
    match execute_step env i (st.max_retries + 1 - st.retry_count) s with
    | (s1, some e) => (s1, some e)
    | (s1, none) =>
      let s2 := modTask s1 (fun t => { t with progress := progressOf i n })
      match save_task env s2 with
      | (s3, some e) => (s3, some e)
      | (s3, none) =>
        if s3.task.status = AgentStatus.cancelled then (s3, none)
        else executeLoop env n rem s3

/-- The part of `BaseAgent.execute`'s try block that follows planning
(main.py lines 185-207): run the step loop over the planned steps, and if
the status is still RUNNING mark the task COMPLETED and finalize; persist
the final snapshot. -/
def executeTail (env : Env) (s3 : St) : St × Option String :=
  let n := s3.task.steps.length
  match executeLoop env n n s3 with
  | (s4, some e) => (s4, some e)
  | (s4, none) =>
    let s5 := if s4.task.status = AgentStatus.running
              then finalize_task (modTask s4 (fun t =>
                { t with status := AgentStatus.completed }))
              else s4
    match save_task env s5 with
    | (s6, some e) => (s6, some e)
    | (s6, none) => (s6, none)

/-- The try block of `BaseAgent.execute` (main.py lines 177-208): mark the
task RUNNING, persist, plan, then `executeTail`. -/
def executeBody (env : Env) (s : St) : St × Option String :=
  let s1 := modTask s (fun t => { t with status := AgentStatus.running })
  match save_task env s1 with
  | (s2, some e) => (s2, some e)
  | (s2, none) =>
    match generate_plan env s2 with
    | (s3, some e) => (s3, some e)
    | (s3, none) => executeTail env s3

/-- `BaseAgent.execute` (main.py lines 175-218): the except handler marks the
task FAILED, overwrites `error_message` with the raw exception text, persists
and re-raises. -/
def execute (env : Env) (s : St) : St × Option String :=
  match executeBody env s with
  | (s1, none) => (s1, none)
  | (s1, some e) =>
    let s2 := modTask s1 (fun t =>
      { t with status := AgentStatus.failed, error_message := some e })
    match save_task env s2 with
    | (s3, some m) => (s3, some m)
    | (s3, none) => (s3, some e)

/-- `create_agent` (main.py lines 677-683): only FEATURE_IMPLEMENTER has an
agent class; every other accepted variant raises `ValueError`. -/
def create_agent (t : AgentTask) : Except String Unit :=
  if t.agent_type = AgentType.feature_implementer then Except.ok ()
  else Except.error ("Unknown agent type")

/-- Fresh engine state for a task. -/
def initSt (t : AgentTask) : St :=
  { task := t, nsave := 0, nbc := 0, trace := [] }

/-- `execute_agent_task` (main.py lines 783-799): the background wrapper
builds the agent and runs `execute`, catching and logging every exception
(including the `ValueError` from `create_agent`, in which case no engine
ever runs and no event is produced). -/
def execute_agent_task (env : Env) (t : AgentTask) : St :=
  match create_agent t with
  | Except.ok _ => (execute env (initSt t)).1
  | Except.error _ => initSt t

/-- The store snapshots written by a trace, in order. -/
def savesOf (tr : List Ev) : List AgentTask :=
  tr.filterMap (fun e => match e with | Ev.save t => some t | _ => none)

/-- Number of executor invocations recorded in a trace. -/
def countInvoke (tr : List Ev) : Nat :=
  (tr.filter (fun e => match e with | Ev.invoke _ _ => true | _ => false)).length

/-- Redis semantics for one task id: each `setex` overwrites the whole
snapshot, so a write sequence folds by overwriting. -/
def storeAfterWrites (init : Option AgentTask) (ws : List AgentTask) : Option AgentTask :=
  ws.foldl (fun _ w => some w) init

/-- Result of the cancel endpoint as seen by the caller. -/
inductive CancelOutcome
  | notFound
  | rejected
  | accepted (t : AgentTask)
  deriving DecidableEq, Repr

/-- `cancel_agent_task` endpoint (main.py lines 749-767): 404 when the id is
unknown; 400 when the stored status is COMPLETED/FAILED/CANCELLED; otherwise
it parses the stored snapshot, flips its status to CANCELLED and writes it
back.  Returns the outcome and the store content afterwards. -/
def cancel_agent_task (store : Option AgentTask) : CancelOutcome × Option AgentTask :=
  match store with
  | none => (CancelOutcome.notFound, none)
  | some t =>
    if t.status = AgentStatus.completed ∨ t.status = AgentStatus.failed ∨
       t.status = AgentStatus.cancelled then
      (CancelOutcome.rejected, some t)
    else
      let t2 := { t with status := AgentStatus.cancelled }
      (CancelOutcome.accepted t2, some t2)

/-- The task built by the `create_agent_task` endpoint
(main.py lines 701-715): PENDING, progress 0, empty steps. -/
def newTask (id project_id title description : String) (aty : AgentType) : AgentTask :=
  { id := id, project_id := project_id, user_id := "current-user",
    agent_type := aty, title := title, description := description }

/-- Full submission pipeline (main.py lines 701-734 plus the background run):
the endpoint writes the initial PENDING snapshot, then the background task
runs; the resulting store content is the fold of all writes. -/
def create_and_run (env : Env) (t : AgentTask) : Option AgentTask :=
  storeAfterWrites (some t) (savesOf (execute_agent_task env t).trace)

/-- All store writes succeed. -/
def saveOk (env : Env) : Prop :=
  ∀ n, env.saveOutcome n = none

/-! ### Concrete scenarios -/

/-- A benign environment: the planner returns a well-formed two-step plan,
every executor invocation succeeds, every store write and delivery succeeds. -/
def env2 : Env :=
  { plan := PlanOutcome.response (some (
      [ { name := "Step A", description := "a", type := "analysis" },
        { name := "Step B", description := "b", type := "analysis" } ])),
    exec := fun _ _ => ExecOutcome.ok ([]),
    saveOutcome := fun _ => none,
    notifyDelivered := fun _ => true }

/-- A freshly submitted FEATURE_IMPLEMENTER task. -/
def sampleTask : AgentTask :=
  newTask ("t1") ("p1") ("T") ("D") AgentType.feature_implementer

/-- Same submission but with the accepted variant BUG_FIXER, for which
`create_agent` has no branch. -/
def taskBugFixer : AgentTask :=
  newTask ("t3") ("p1") ("T") ("D") AgentType.bug_fixer

/-- Environment whose planner response does not parse and whose executor
fails on every invocation. -/
def envFail : Env :=
  { env2 with plan := PlanOutcome.response none,
              exec := fun _ _ => ExecOutcome.err ("boom") }

/-- Environment where the planner invocation itself raises. -/
def envPlanErr : Env :=
  { env2 with plan := PlanOutcome.err ("ai timeout") }

/-- Environment where the very first store write raises. -/
def envSaveFail : Env :=
  { env2 with saveOutcome := fun n => if n = 0 then some ("redis connection lost") else none }

/-- Environment whose plan contains a single step of an unknown type. -/
def envUnknownStep : Env :=
  { env2 with plan := PlanOutcome.response (some (
      [ { name := "Mystery", description := "m", type := "mystery" } ])) }

/-- Environment whose planner response does not parse but whose executor
succeeds on every invocation: the fallback plan runs to completion. -/
def envFallback : Env :=
  { env2 with plan := PlanOutcome.response none }

/-- Engine state of a task already holding the default plan, about to run
its first step. -/
def c3state : St :=
  initSt ({ sampleTask with steps := defaultPlan })

/-- A single step whose type has no executor branch. -/
def mysteryStep : AgentStep :=
  { id := "step_0", name := "Mystery", description := "m", type := "mystery" }

/-- Engine state of a task holding one unknown-type step. -/
def c8state : St :=
  initSt ({ sampleTask with steps := [mysteryStep] })

/-- The store snapshots of the benign two-step run. -/
def c1saves : List AgentTask :=
  savesOf (execute_agent_task env2 sampleTask).trace

/-- Store content between step 1 and step 2 of the benign run: the engine
has persisted four snapshots (RUNNING, step-1 RUNNING, step-1 COMPLETED,
progress 50). -/
def c1storeMid : Option AgentTask :=
  storeAfterWrites (some sampleTask) (c1saves.take 4)

/-- The cancel request arriving between step 1 and step 2. -/
def c1cancel : CancelOutcome × Option AgentTask :=
  cancel_agent_task c1storeMid

/-- Store content after the engine's remaining writes land on top of the
cancel write. -/
def c1final : Option AgentTask :=
  storeAfterWrites c1cancel.2 (c1saves.drop 4)

/-- Invariant relating a state to a later state of the same step execution:
the trace only grows, every snapshot persisted in between carries the
current task-level progress and status, and all task-level fields and the
step-list length are preserved. -/
def StepInv (s s2 : St) : Prop :=
  (∃ Δ, s2.trace = s.trace ++ Δ ∧
     ∀ t ∈ savesOf Δ, t.progress = s.task.progress ∧ t.status = s.task.status) ∧
  s2.task.progress = s.task.progress ∧
  s2.task.status = s.task.status ∧
  s2.task.error_message = s.task.error_message ∧
  s2.task.result = s.task.result ∧
  s2.task.steps.length = s.task.steps.length

/-- Weaker invariant for the whole of `execute_step`, which may fail the
task: persisted snapshots keep the entry progress but may be FAILED, and
the final status is the entry status or FAILED. -/
def ExecInv (s s2 : St) : Prop :=
  (∃ Δ, s2.trace = s.trace ++ Δ ∧
     ∀ t ∈ savesOf Δ, t.progress = s.task.progress ∧
       (t.status = s.task.status ∨ t.status = AgentStatus.failed)) ∧
  s2.task.progress = s.task.progress ∧
  (s2.task.status = s.task.status ∨ s2.task.status = AgentStatus.failed) ∧
  s2.task.steps.length = s.task.steps.length

/-- A snapshot the engine may persist during the step loop: RUNNING with
progress within bounds, or FAILED with progress strictly below 100. -/
def SnapOk (t : AgentTask) : Prop :=
  (t.status = AgentStatus.running ∧ t.progress ≤ 100) ∨
  (t.status = AgentStatus.failed ∧ t.progress < 100)

/-- The seventh snapshot of the benign two-step run: saved right after
the last step completes, still RUNNING at progress 100. -/
def c6snap : AgentTask :=
  (savesOf (execute_agent_task env2 sampleTask).trace).getD 6 sampleTask

def qle (a b : ℚ) : Prop := a ≤ b

def progs (tr : List Ev) : List ℚ := (savesOf tr).map (fun t => t.progress)

def ProgPhase (s s2 : St) : Prop :=
  ∃ d, s2.trace = s.trace ++ d ∧
    List.Chain qle s.task.progress (progs d) ∧
    (progs d).getLastD s.task.progress ≤ s2.task.progress ∧
    (s.task.progress ≤ 100 → (∀ x ∈ progs d, x ≤ 100) ∧ s2.task.progress ≤ 100)

def c7snap : AgentTask :=
  (savesOf (execute_agent_task env2 sampleTask).trace).getD 3 sampleTask

/-! ### Basic lemmas about the embedding -/

/-- `progressOf` is exactly the source's `((i + 1) / len(steps)) * 100`. -/
theorem progressOf_eq_div (i n : Nat) :
    progressOf i n = (((i + 1 : Nat) : ℚ) / (n : ℚ)) * 100 := by
  rw [progressOf, Rat.mkRat_eq_div]
  push_cast
  ring

theorem savesOf_nil : savesOf [] = [] := rfl

theorem savesOf_append (a b : List Ev) : savesOf (a ++ b) = savesOf a ++ savesOf b := by
  simp [savesOf]

theorem savesOf_save (t : AgentTask) : savesOf [Ev.save t] = [t] := rfl

theorem savesOf_broadcast (t : AgentTask) (d : Bool) : savesOf [Ev.broadcast t d] = [] := rfl

theorem savesOf_invoke (i a : Nat) : savesOf [Ev.invoke i a] = [] := rfl

theorem savesOf_sleep (n : Nat) : savesOf [Ev.sleep n] = [] := rfl

theorem countInvoke_append (a b : List Ev) :
    countInvoke (a ++ b) = countInvoke a + countInvoke b := by
  simp [countInvoke, List.filter_append]

theorem countInvoke_save (t : AgentTask) : countInvoke [Ev.save t] = 0 := rfl

theorem countInvoke_broadcast (t : AgentTask) (d : Bool) :
    countInvoke [Ev.broadcast t d] = 0 := rfl

theorem countInvoke_invoke (i a : Nat) : countInvoke [Ev.invoke i a] = 1 := rfl

theorem countInvoke_sleep (n : Nat) : countInvoke [Ev.sleep n] = 0 := rfl

theorem storeAfterWrites_append (init : Option AgentTask) (a b : List AgentTask) :
    storeAfterWrites init (a ++ b) = storeAfterWrites (storeAfterWrites init a) b := by
  simp [storeAfterWrites, List.foldl_append]

theorem storeAfterWrites_last (init : Option AgentTask) (ws : List AgentTask)
    (h : ws ≠ []) : storeAfterWrites init ws = ws.getLast? := by
  induction ws generalizing init with
  | nil => exact absurd rfl h
  | cons a l ih =>
    cases l with
    | nil => simp [storeAfterWrites]
    | cons b l2 =>
      rw [List.getLast?_cons_cons]
      exact ih (some a) (by simp)

/-! ### Primitive state-transformer lemmas -/

@[simp] theorem modTask_task (s : St) (f : AgentTask → AgentTask) :
    (modTask s f).task = f s.task := rfl

@[simp] theorem modTask_trace (s : St) (f : AgentTask → AgentTask) :
    (modTask s f).trace = s.trace := rfl

@[simp] theorem modStep_trace (s : St) (i : Nat) (f : AgentStep → AgentStep) :
    (modStep s i f).trace = s.trace := rfl

@[simp] theorem modStep_progress (s : St) (i : Nat) (f : AgentStep → AgentStep) :
    (modStep s i f).task.progress = s.task.progress := rfl

@[simp] theorem modStep_status (s : St) (i : Nat) (f : AgentStep → AgentStep) :
    (modStep s i f).task.status = s.task.status := rfl

@[simp] theorem modStep_error (s : St) (i : Nat) (f : AgentStep → AgentStep) :
    (modStep s i f).task.error_message = s.task.error_message := rfl

@[simp] theorem modStep_result (s : St) (i : Nat) (f : AgentStep → AgentStep) :
    (modStep s i f).task.result = s.task.result := rfl

theorem modStep_steps (s : St) (i : Nat) (f : AgentStep → AgentStep) :
    (modStep s i f).task.steps = s.task.steps.set i (f (s.task.steps.getD i dummyStep)) := rfl

@[simp] theorem modStep_length (s : St) (i : Nat) (f : AgentStep → AgentStep) :
    (modStep s i f).task.steps.length = s.task.steps.length := by
  rw [modStep_steps, List.length_set]

@[simp] theorem emit_task (s : St) (e : Ev) : (emit s e).task = s.task := rfl

@[simp] theorem emit_trace (s : St) (e : Ev) : (emit s e).trace = s.trace ++ [e] := rfl

@[simp] theorem broadcast_update_task (env : Env) (s : St) :
    (broadcast_update env s).task = s.task := rfl

@[simp] theorem broadcast_update_trace (env : Env) (s : St) :
    (broadcast_update env s).trace =
      s.trace ++ [Ev.broadcast s.task (env.notifyDelivered s.nbc)] := rfl

/-- Either the save succeeds (appending one `Ev.save` of the current task) or
it raises the oracle's message and appends nothing. -/
theorem save_task_cases (env : Env) (s : St) :
    save_task env s =
      ({ s with nsave := s.nsave + 1, trace := s.trace ++ [Ev.save s.task] }, none) ∨
    ∃ m, save_task env s = ({ s with nsave := s.nsave + 1 }, some m) := by
  unfold save_task
  cases h : env.saveOutcome s.nsave with
  | none => exact Or.inl rfl
  | some m => exact Or.inr ⟨m, rfl⟩

/-- Under `saveOk` the save always succeeds. -/
theorem save_task_ok {env : Env} (hok : saveOk env) (s : St) :
    save_task env s =
      ({ s with nsave := s.nsave + 1, trace := s.trace ++ [Ev.save s.task] }, none) := by
  unfold save_task
  rw [hok s.nsave]

/-- `stepOf` after an in-place update of the same index. -/
theorem stepOf_modStep_self {s : St} {i : Nat} (f : AgentStep → AgentStep)
    (h : i < s.task.steps.length) :
    stepOf (modStep s i f) i = f (stepOf s i) := by
  simp [stepOf, modStep, List.getD_eq_getElem?_getD, List.getElem?_set_self, h]

/-- `stepOf` at any other index is untouched by `modStep`. -/
theorem stepOf_modStep_ne {s : St} {i j : Nat} (f : AgentStep → AgentStep)
    (h : i ≠ j) :
    stepOf (modStep s i f) j = stepOf s j := by
  simp [stepOf, modStep, List.getD_eq_getElem?_getD, List.getElem?_set_ne, h]

/-- `execute_step_logic` never writes to the store, preserves every
task-level field and the step-list length, and appends at most an invoke
event. -/
theorem execute_step_logic_basic (env : Env) (i : Nat) (s : St) :
    ∃ Δ, (execute_step_logic env i s).1.trace = s.trace ++ Δ ∧ savesOf Δ = [] ∧
      (execute_step_logic env i s).1.task.progress = s.task.progress ∧
      (execute_step_logic env i s).1.task.status = s.task.status ∧
      (execute_step_logic env i s).1.task.error_message = s.task.error_message ∧
      (execute_step_logic env i s).1.task.result = s.task.result ∧
      (execute_step_logic env i s).1.task.steps.length = s.task.steps.length := by
  unfold execute_step_logic
  by_cases hk : knownStepTypes.contains (stepOf s i).type
  · rw [if_pos hk]
    cases h : env.exec i (stepOf s i).retry_count with
    | ok out =>
      exact ⟨[Ev.invoke i (stepOf s i).retry_count], by simp, by simp [savesOf], by simp,
        by simp, by simp, by simp, by simp⟩
    | err m =>
      exact ⟨[Ev.invoke i (stepOf s i).retry_count], by simp, by simp [savesOf], by simp,
        by simp, by simp, by simp, by simp⟩
  · rw [if_neg hk]
    exact ⟨[], by simp, rfl, rfl, rfl, rfl, rfl, rfl⟩

/-- `save_task` never mutates the in-memory task. -/
theorem save_task_task (env : Env) (s : St) : (save_task env s).1.task = s.task := by
  obtain h | ⟨m, h⟩ := save_task_cases env s <;> rw [h]

/-- Whatever `save_task` appends to the trace, the only snapshot it can
persist is the current in-memory task. -/
theorem save_task_traceFacts (env : Env) (s : St) :
    ∃ Δ, (save_task env s).1.trace = s.trace ++ Δ ∧ ∀ t ∈ savesOf Δ, t = s.task := by
  obtain h | ⟨m, h⟩ := save_task_cases env s <;> rw [h]
  · exact ⟨[Ev.save s.task], rfl, by simp [savesOf]⟩
  · exact ⟨[], by simp, by simp [savesOf]⟩

theorem stepInv_refl (s : St) : StepInv s s :=
  ⟨⟨[], by simp, by simp [savesOf]⟩, rfl, rfl, rfl, rfl, rfl⟩

theorem stepInv_trans {s1 s2 s3 : St} (h12 : StepInv s1 s2) (h23 : StepInv s2 s3) :
    StepInv s1 s3 := by
  obtain ⟨⟨d1, ht1, hs1⟩, hp1, hst1, he1, hr1, hl1⟩ := h12
  obtain ⟨⟨d2, ht2, hs2⟩, hp2, hst2, he2, hr2, hl2⟩ := h23
  refine ⟨⟨d1 ++ d2, by rw [ht2, ht1, List.append_assoc], ?_⟩,
    hp2.trans hp1, hst2.trans hst1, he2.trans he1, hr2.trans hr1, hl2.trans hl1⟩
  intro t ht
  rw [savesOf_append, List.mem_append] at ht
  rcases ht with h | h
  · exact hs1 t h
  · obtain ⟨hp, hst⟩ := hs2 t h
    exact ⟨hp.trans hp1, hst.trans hst1⟩

theorem execInv_of_stepInv {s s2 : St} (h : StepInv s s2) : ExecInv s s2 := by
  obtain ⟨⟨d, ht, hs⟩, hp, hst, _, _, hl⟩ := h
  refine ⟨⟨d, ht, ?_⟩, hp, Or.inl hst, hl⟩
  intro t htm
  obtain ⟨h1, h2⟩ := hs t htm
  exact ⟨h1, Or.inl h2⟩

theorem execInv_trans {s1 s2 s3 : St} (h12 : ExecInv s1 s2) (h23 : ExecInv s2 s3) :
    ExecInv s1 s3 := by
  obtain ⟨⟨d1, ht1, hs1⟩, hp1, hst1, hl1⟩ := h12
  obtain ⟨⟨d2, ht2, hs2⟩, hp2, hst2, hl2⟩ := h23
  refine ⟨⟨d1 ++ d2, by rw [ht2, ht1, List.append_assoc], ?_⟩, hp2.trans hp1, ?_, hl2.trans hl1⟩
  · intro t ht
    rw [savesOf_append, List.mem_append] at ht
    rcases ht with h | h
    · exact hs1 t h
    · obtain ⟨hp, hst⟩ := hs2 t h
      refine ⟨hp.trans hp1, ?_⟩
      rcases hst with h2 | h2
      · rw [h2]
        exact hst1
      · exact Or.inr h2
  · rcases hst2 with h2 | h2
    · rw [h2]
      exact hst1
    · exact Or.inr h2

theorem stepInv_modStep (s : St) (i : Nat) (f : AgentStep → AgentStep) :
    StepInv s (modStep s i f) :=
  ⟨⟨[], by simp, by simp [savesOf]⟩, rfl, rfl, rfl, rfl, by simp⟩

theorem stepInv_emit (s : St) (e : Ev) (h : savesOf [e] = []) : StepInv s (emit s e) :=
  ⟨⟨[e], rfl, by rw [h]; simp⟩, rfl, rfl, rfl, rfl, rfl⟩

theorem stepInv_broadcast (env : Env) (s : St) : StepInv s (broadcast_update env s) :=
  ⟨⟨[Ev.broadcast s.task (env.notifyDelivered s.nbc)], rfl, by simp [savesOf]⟩,
   rfl, rfl, rfl, rfl, rfl⟩

theorem stepInv_save (env : Env) (s : St) : StepInv s (save_task env s).1 := by
  obtain ⟨d, ht, hs⟩ := save_task_traceFacts env s
  have htask := save_task_task env s
  refine ⟨⟨d, ht, ?_⟩, by rw [htask], by rw [htask], by rw [htask], by rw [htask], by rw [htask]⟩
  intro t htm
  rw [hs t htm]
  exact ⟨rfl, rfl⟩

theorem stepInv_exec_logic (env : Env) (i : Nat) (s : St) :
    StepInv s (execute_step_logic env i s).1 := by
  obtain ⟨d, ht, hs, hp, hst, he, hr, hl⟩ := execute_step_logic_basic env i s
  refine ⟨⟨d, ht, ?_⟩, hp, hst, he, hr, hl⟩
  intro t htm
  rw [hs] at htm
  simp at htm

/-- The try block of `execute_step` satisfies `StepInv`: it only mutates the
step in place and persists snapshots carrying the current task-level
progress and status. -/
theorem stepTryBody_stepInv (env : Env) (i : Nat) (s : St) :
    StepInv s (stepTryBody env i s).1 := by
  unfold stepTryBody
  dsimp only
  cases h1 : save_task env (modStep s i fun st => { st with status := StepStatus.running }) with
  | mk s2 r2 =>
    have hinv2 : StepInv s s2 := by
      have := stepInv_save env (modStep s i fun st => { st with status := StepStatus.running })
      rw [h1] at this
      exact stepInv_trans (stepInv_modStep s i _) this
    cases r2 with
    | some m => exact hinv2
    | none =>
      dsimp only
      have hinv3 : StepInv s (broadcast_update env s2) :=
        stepInv_trans hinv2 (stepInv_broadcast env s2)
      cases h4 : execute_step_logic env i (broadcast_update env s2) with
      | mk s4 r4 =>
        have hinv4 : StepInv s s4 := by
          have := stepInv_exec_logic env i (broadcast_update env s2)
          rw [h4] at this
          exact stepInv_trans hinv3 this
        cases r4 with
        | some m => exact hinv4
        | none =>
          dsimp only
          have hinv5 : StepInv s (modStep s4 i fun st => { st with status := StepStatus.completed }) :=
            stepInv_trans hinv4 (stepInv_modStep s4 i _)
          cases h6 : save_task env (modStep s4 i fun st => { st with status := StepStatus.completed }) with
          | mk s6 r6 =>
            have hinv6 : StepInv s s6 := by
              have := stepInv_save env (modStep s4 i fun st => { st with status := StepStatus.completed })
              rw [h6] at this
              exact stepInv_trans hinv5 this
            cases r6 with
            | some m => exact hinv6
            | none =>
              dsimp only
              exact stepInv_trans hinv6 (stepInv_broadcast env s6)

/-- `execute_step` satisfies `ExecInv` (trace growth with snapshots at the
entry progress, entry-or-FAILED statuses, progress and step-count
preservation), and on success it leaves the task-level status untouched. -/
theorem execute_step_execInv (env : Env) (i : Nat) :
    ∀ (fuel : Nat) (s : St),
      ExecInv s (execute_step env i fuel s).1 ∧
      ((execute_step env i fuel s).2 = none →
        (execute_step env i fuel s).1.task.status = s.task.status) := by
  intro fuel
  induction fuel with
  | zero =>
    intro s
    exact ⟨execInv_of_stepInv (stepInv_refl s), by intro h; exact rfl⟩
  | succ fuel ih =>
    intro s
    unfold execute_step
    dsimp only
    cases hb : stepTryBody env i s with
    | mk s1 r1 =>
      have hinv1 : StepInv s s1 := by
        have := stepTryBody_stepInv env i s
        rw [hb] at this
        exact this
      cases r1 with
      | none =>
        exact ⟨execInv_of_stepInv hinv1, fun _ => hinv1.2.2.1⟩
      | some e =>
        dsimp only
        split
        case isTrue hrc =>
          set sF := modStep s1 i fun st =>
            { st with status := StepStatus.failed, error_message := some e } with hsF
          set sP := modStep sF i fun st =>
            { st with retry_count := st.retry_count + 1,
                      status := StepStatus.pending, error_message := none } with hsP
          set s4 := emit sP (Ev.sleep (2 ^ ((stepOf sF i).retry_count + 1))) with hs4
          have ha : StepInv s1 sF := stepInv_modStep s1 i _
          have hb2 : StepInv sF sP := stepInv_modStep sF i _
          have hc : StepInv sP s4 := stepInv_emit sP _ (by simp [savesOf])
          have hinv4 : StepInv s s4 :=
            stepInv_trans hinv1 (stepInv_trans ha (stepInv_trans hb2 hc))
          obtain ⟨hEx, hSt⟩ := ih s4
          constructor
          · exact execInv_trans (execInv_of_stepInv hinv4) hEx
          · intro hnone
            rw [hSt hnone]
            exact hinv4.2.2.1
        case isFalse hrc =>
          set s2 := modStep s1 i fun st =>
            { st with status := StepStatus.failed, error_message := some e } with hs2
          set s3 := modTask s2 fun t =>
            { t with status := AgentStatus.failed,
                     error_message := some ("Step " ++ (stepOf s2 i).name ++ " failed: " ++ e) }
            with hs3
          have ha : StepInv s1 s2 := stepInv_modStep s1 i _
          have hb3 : ExecInv s s2 := execInv_of_stepInv (stepInv_trans hinv1 ha)
          have hc : ExecInv s2 s3 := by
            refine ⟨⟨[], by rw [hs3]; simp, by simp [savesOf]⟩, by rw [hs3]; simp,
              Or.inr (by rw [hs3]; simp), by rw [hs3]; simp⟩
          have hinv3 : ExecInv s s3 := execInv_trans hb3 hc
          cases hsv : save_task env s3 with
          | mk s5 r5 =>
            have hinv5 : ExecInv s s5 := by
              have := execInv_of_stepInv (stepInv_save env s3)
              rw [hsv] at this
              exact execInv_trans hinv3 this
            cases r5 with
            | some m => exact ⟨hinv5, by intro h; simp at h⟩
            | none =>
              dsimp only
              refine ⟨execInv_trans hinv5 (execInv_of_stepInv (stepInv_broadcast env s5)), ?_⟩
              intro h
              simp at h

/-- Under `saveOk`, when the step's type is known and the executor raises,
the try block of `execute_step` raises that error after persisting the
RUNNING step, broadcasting and invoking the executor exactly once. -/
theorem stepTryBody_err {env : Env} (hok : saveOk env) (i : Nat) (s : St) (msg : String)
    (hi : i < s.task.steps.length)
    (hk : knownStepTypes.contains (stepOf s i).type = true)
    (hex : env.exec i (stepOf s i).retry_count = ExecOutcome.err msg) :
    ∃ s4, stepTryBody env i s = (s4, some msg) ∧
      s4.task.progress = s.task.progress ∧
      s4.task.status = s.task.status ∧
      s4.task.error_message = s.task.error_message ∧
      s4.task.result = s.task.result ∧
      s4.task.steps = s.task.steps.set i ({ stepOf s i with status := StepStatus.running }) ∧
      countInvoke s4.trace = countInvoke s.trace + 1 := by
  unfold stepTryBody
  dsimp only
  rw [save_task_ok hok]
  dsimp only
  have hstep : stepOf (broadcast_update env
      ({ modStep s i (fun st => { st with status := StepStatus.running }) with
         nsave := (modStep s i fun st => { st with status := StepStatus.running }).nsave + 1,
         trace := (modStep s i fun st => { st with status := StepStatus.running }).trace ++
           [Ev.save (modStep s i fun st => { st with status := StepStatus.running }).task] })) i =
      { stepOf s i with status := StepStatus.running } := by
    show stepOf (modStep s i fun st => { st with status := StepStatus.running }) i = _
    exact stepOf_modStep_self _ hi
  unfold execute_step_logic
  dsimp only
  rw [hstep]
  dsimp only
  rw [if_pos (by exact hk)]
  rw [show (({ stepOf s i with status := StepStatus.running } : AgentStep)).retry_count =
    (stepOf s i).retry_count from rfl, hex]
  dsimp only
  refine ⟨_, rfl, by simp, by simp, by simp, by simp, ?_, ?_⟩
  · show (modStep s i fun st => { st with status := StepStatus.running }).task.steps = _
    rw [modStep_steps]
    rfl
  · rw [emit_trace, broadcast_update_trace]
    simp only [List.append_assoc]
    rw [countInvoke_append]
    simp [countInvoke, List.filter_append]

/-- `stepOf` is just a `getD` on the task's step list. -/
theorem stepOf_unfold (s : St) (i : Nat) :
    stepOf s i = s.task.steps.getD i dummyStep := rfl

/-- Under `saveOk`, a step whose type has no executor branch is a no-op
success: the try block completes, the step is marked COMPLETED with its
output untouched, the task-level fields are untouched and no executor
invocation happens. -/
theorem stepTryBody_unknown {env : Env} (hok : saveOk env) (i : Nat) (s : St)
    (hi : i < s.task.steps.length)
    (hk : knownStepTypes.contains (stepOf s i).type = false) :
    ∃ s6, stepTryBody env i s = (s6, none) ∧
      s6.task.progress = s.task.progress ∧
      s6.task.status = s.task.status ∧
      s6.task.error_message = s.task.error_message ∧
      s6.task.result = s.task.result ∧
      s6.task.steps = s.task.steps.set i ({ stepOf s i with status := StepStatus.completed }) ∧
      countInvoke s6.trace = countInvoke s.trace := by
  simp only [stepOf_unfold, List.getD_eq_getElem?_getD] at hk
  unfold stepTryBody execute_step_logic
  dsimp only
  simp only [save_task_ok hok]
  simp only [stepOf_unfold, broadcast_update_task, modStep_steps, List.getD_eq_getElem?_getD,
    List.getElem?_set_self (by simpa using hi), Option.getD_some, hk,
    Bool.false_eq_true, if_false]
  refine ⟨_, rfl, by simp, by simp, by simp, by simp, ?_, ?_⟩
  · simp [stepOf_unfold, modStep_steps, List.getD_eq_getElem?_getD, hi, List.set_set]
  · simp [countInvoke, List.filter_append]

/-- Under `saveOk`, a known-type step whose executor invocation succeeds
completes the try block: the step is marked COMPLETED with the executor's
output, the task-level fields are untouched, and exactly one executor
invocation happens. -/
theorem stepTryBody_okexec {env : Env} (hok : saveOk env) (i : Nat) (s : St)
    (out : List (String × Nat))
    (hi : i < s.task.steps.length)
    (hk : knownStepTypes.contains (stepOf s i).type = true)
    (hex : env.exec i (stepOf s i).retry_count = ExecOutcome.ok out) :
    ∃ s6, stepTryBody env i s = (s6, none) ∧
      s6.task.progress = s.task.progress ∧
      s6.task.status = s.task.status ∧
      s6.task.error_message = s.task.error_message ∧
      s6.task.result = s.task.result ∧
      s6.task.steps = s.task.steps.set i
        ({ stepOf s i with status := StepStatus.completed, output_data := out }) ∧
      countInvoke s6.trace = countInvoke s.trace + 1 := by
  simp only [stepOf_unfold, List.getD_eq_getElem?_getD] at hk hex
  unfold stepTryBody execute_step_logic
  dsimp only
  simp only [save_task_ok hok]
  simp only [stepOf_unfold, broadcast_update_task, modStep_steps, List.getD_eq_getElem?_getD,
    List.getElem?_set_self (by simpa using hi), Option.getD_some, hk, if_true, hex]
  refine ⟨_, rfl, by simp, by simp, by simp, by simp, ?_, ?_⟩
  · simp [stepOf_unfold, modStep_steps, List.getD_eq_getElem?_getD, hi, List.set_set]
  · simp [countInvoke, List.filter_append]

/-- Under `saveOk` and with adequate fuel (`d = max_retries - retry_count`,
requiring `retry_count ≤ max_retries`), `execute_step` preserves the step
list length and every other step, keeps the executed step's retry counter
within its maximum, and on failure leaves the task FAILED. -/
theorem execute_step_saveOk_facts {env : Env} (hok : saveOk env) (i : Nat) :
    ∀ (d : Nat) (s : St), i < s.task.steps.length →
      (stepOf s i).retry_count ≤ (stepOf s i).max_retries →
      (stepOf s i).max_retries - (stepOf s i).retry_count = d →
      (execute_step env i (d + 1) s).1.task.steps.length = s.task.steps.length ∧
      (∀ j, j ≠ i → stepOf (execute_step env i (d + 1) s).1 j = stepOf s j) ∧
      (stepOf (execute_step env i (d + 1) s).1 i).retry_count ≤
        (stepOf (execute_step env i (d + 1) s).1 i).max_retries ∧
      (∀ e, (execute_step env i (d + 1) s).2 = some e →
        (execute_step env i (d + 1) s).1.task.status = AgentStatus.failed) := by
  intro d
  induction d with
  | zero =>
    intro s hi hrc hd
    by_cases hk : knownStepTypes.contains (stepOf s i).type = true
    · cases hex : env.exec i (stepOf s i).retry_count with
      | ok out =>
        obtain ⟨s6, hb, hp6, hst6, he6, hr6, hsteps6, hcnt6⟩ :=
          stepTryBody_okexec hok i s out hi hk hex
        unfold execute_step
        dsimp only
        rw [hb]
        dsimp only
        refine ⟨?_, ?_, ?_, ?_⟩
        · rw [hsteps6, List.length_set]
        · intro j hj
          simp [stepOf_unfold, hsteps6, List.getD_eq_getElem?_getD,
            List.getElem?_set_ne (Ne.symm hj)]
        · simp only [stepOf_unfold, hsteps6, List.getD_eq_getElem?_getD,
            List.getElem?_set_self (by simpa using hi), Option.getD_some]
          simpa [stepOf_unfold, List.getD_eq_getElem?_getD] using hrc
        · intro e he
          exact Option.noConfusion he
      | err m =>
        obtain ⟨s4, hb, hp4, hst4, he4, hr4, hsteps4, hcnt4⟩ :=
          stepTryBody_err hok i s m hi hk hex
        unfold execute_step
        dsimp only
        rw [hb]
        dsimp only
        have hi4 : i < s4.task.steps.length := by
          rw [hsteps4, List.length_set]
          exact hi
        have hfail : stepOf (modStep s4 i fun st =>
            { st with status := StepStatus.failed, error_message := some m }) i =
            { stepOf s i with status := StepStatus.failed, error_message := some m } := by
          rw [stepOf_modStep_self _ hi4]
          simp [stepOf_unfold, hsteps4, List.getD_eq_getElem?_getD,
            List.getElem?_set_self (by simpa using hi)]
        have hcond : ¬ ((stepOf (modStep s4 i fun st =>
            { st with status := StepStatus.failed, error_message := some m }) i).retry_count <
            (stepOf (modStep s4 i fun st =>
              { st with status := StepStatus.failed, error_message := some m }) i).max_retries) := by
          rw [hfail]
          dsimp only
          omega
        rw [if_neg hcond]
        rw [save_task_ok hok]
        dsimp only
        refine ⟨?_, ?_, ?_, ?_⟩
        · simp [broadcast_update_task, modTask_task, modStep_steps, hsteps4, List.length_set]
        · intro j hj
          simp [stepOf_unfold, broadcast_update_task, modTask_task, modStep_steps, hsteps4,
            List.getD_eq_getElem?_getD, List.getElem?_set_ne (Ne.symm hj)]
        · simp only [stepOf_unfold, broadcast_update_task, modTask_task, modStep_steps, hsteps4,
            List.getD_eq_getElem?_getD, List.set_set,
            List.getElem?_set_self (by simpa using hi), Option.getD_some]
          simpa [stepOf_unfold, List.getD_eq_getElem?_getD] using hrc
        · intro e _
          simp [broadcast_update_task, modTask_task]
    · have hk' : knownStepTypes.contains (stepOf s i).type = false := by
        simpa using hk
      obtain ⟨s6, hb, hp6, hst6, he6, hr6, hsteps6, hcnt6⟩ :=
        stepTryBody_unknown hok i s hi hk'
      unfold execute_step
      dsimp only
      rw [hb]
      dsimp only
      refine ⟨?_, ?_, ?_, ?_⟩
      · rw [hsteps6, List.length_set]
      · intro j hj
        simp [stepOf_unfold, hsteps6, List.getD_eq_getElem?_getD,
          List.getElem?_set_ne (Ne.symm hj)]
      · simp only [stepOf_unfold, hsteps6, List.getD_eq_getElem?_getD,
          List.getElem?_set_self (by simpa using hi), Option.getD_some]
        simpa [stepOf_unfold, List.getD_eq_getElem?_getD] using hrc
      · intro e he
        exact Option.noConfusion he
  | succ d ih =>
    intro s hi hrc hd
    by_cases hk : knownStepTypes.contains (stepOf s i).type = true
    · cases hex : env.exec i (stepOf s i).retry_count with
      | ok out =>
        obtain ⟨s6, hb, hp6, hst6, he6, hr6, hsteps6, hcnt6⟩ :=
          stepTryBody_okexec hok i s out hi hk hex
        unfold execute_step
        dsimp only
        rw [hb]
        dsimp only
        refine ⟨?_, ?_, ?_, ?_⟩
        · rw [hsteps6, List.length_set]
        · intro j hj
          simp [stepOf_unfold, hsteps6, List.getD_eq_getElem?_getD,
            List.getElem?_set_ne (Ne.symm hj)]
        · simp only [stepOf_unfold, hsteps6, List.getD_eq_getElem?_getD,
            List.getElem?_set_self (by simpa using hi), Option.getD_some]
          simpa [stepOf_unfold, List.getD_eq_getElem?_getD] using hrc
        · intro e he
          exact Option.noConfusion he
      | err m =>
        obtain ⟨s4, hb, hp4, hst4, he4, hr4, hsteps4, hcnt4⟩ :=
          stepTryBody_err hok i s m hi hk hex
        unfold execute_step
        dsimp only
        rw [hb]
        dsimp only
        have hi4 : i < s4.task.steps.length := by
          rw [hsteps4, List.length_set]
          exact hi
        have hfail : stepOf (modStep s4 i fun st =>
            { st with status := StepStatus.failed, error_message := some m }) i =
            { stepOf s i with status := StepStatus.failed, error_message := some m } := by
          rw [stepOf_modStep_self _ hi4]
          simp [stepOf_unfold, hsteps4, List.getD_eq_getElem?_getD,
            List.getElem?_set_self (by simpa using hi)]
        have hcond : (stepOf (modStep s4 i fun st =>
            { st with status := StepStatus.failed, error_message := some m }) i).retry_count <
            (stepOf (modStep s4 i fun st =>
              { st with status := StepStatus.failed, error_message := some m }) i).max_retries := by
          rw [hfail]
          dsimp only
          omega
        rw [if_pos hcond]
        have hstepsB : (emit
            (modStep (modStep s4 i fun st =>
              { st with status := StepStatus.failed, error_message := some m }) i
              fun st =>
                { st with retry_count := st.retry_count + 1,
                          status := StepStatus.pending, error_message := none })
            (Ev.sleep (2 ^ ((stepOf (modStep s4 i fun st =>
              { st with status := StepStatus.failed, error_message := some m }) i).retry_count +
                1)))).task.steps =
            s.task.steps.set i
              ({ stepOf s i with
                  status := StepStatus.pending,
                  retry_count := (stepOf s i).retry_count + 1,
                  error_message := none }) := by
          simp only [emit_task, modStep_steps, hsteps4]
          simp [stepOf_unfold, List.getD_eq_getElem?_getD,
            List.getElem?_set_self (by simpa using hi), List.set_set, hsteps4]
        obtain ⟨ihlen, ihne, ihrc, ihfail⟩ := ih (emit
            (modStep (modStep s4 i fun st =>
              { st with status := StepStatus.failed, error_message := some m }) i
              fun st =>
                { st with retry_count := st.retry_count + 1,
                          status := StepStatus.pending, error_message := none })
            (Ev.sleep (2 ^ ((stepOf (modStep s4 i fun st =>
              { st with status := StepStatus.failed, error_message := some m }) i).retry_count +
                1))))
          (by simp only [emit_task, modStep_steps, List.length_set]; exact hi4)
          (by simp only [stepOf_unfold, emit_task, modStep_steps, hsteps4,
                List.getD_eq_getElem?_getD, List.set_set,
                List.getElem?_set_self (by simpa using hi), Option.getD_some]
              simp only [stepOf_unfold, List.getD_eq_getElem?_getD] at hrc hd
              omega)
          (by simp only [stepOf_unfold, emit_task, modStep_steps, hsteps4,
                List.getD_eq_getElem?_getD, List.set_set,
                List.getElem?_set_self (by simpa using hi), Option.getD_some]
              simp only [stepOf_unfold, List.getD_eq_getElem?_getD] at hrc hd
              omega)
        refine ⟨?_, ?_, ?_, ?_⟩
        · rw [ihlen, hstepsB, List.length_set]
        · intro j hj
          rw [ihne j hj]
          simp [stepOf_unfold, emit_task, modStep_steps, hsteps4,
            List.getD_eq_getElem?_getD, List.getElem?_set_ne (Ne.symm hj)]
        · exact ihrc
        · exact ihfail
    · have hk' : knownStepTypes.contains (stepOf s i).type = false := by
        simpa using hk
      obtain ⟨s6, hb, hp6, hst6, he6, hr6, hsteps6, hcnt6⟩ :=
        stepTryBody_unknown hok i s hi hk'
      unfold execute_step
      dsimp only
      rw [hb]
      dsimp only
      refine ⟨?_, ?_, ?_, ?_⟩
      · rw [hsteps6, List.length_set]
      · intro j hj
        simp [stepOf_unfold, hsteps6, List.getD_eq_getElem?_getD,
          List.getElem?_set_ne (Ne.symm hj)]
      · simp only [stepOf_unfold, hsteps6, List.getD_eq_getElem?_getD,
          List.getElem?_set_self (by simpa using hi), Option.getD_some]
        simpa [stepOf_unfold, List.getD_eq_getElem?_getD] using hrc
      · intro e he
        exact Option.noConfusion he

/-- Under `saveOk`, a known-type step whose executor raises the same error on
every invocation is retried until the counter reaches `max_retries`
(`d = max_retries - retry_count` remaining retries): the executor is invoked
exactly `d + 1` more times, `execute_step` re-raises the error, and the task
is left FAILED with an error message naming the failed step. -/
theorem execute_step_alwaysFail {env : Env} (hok : saveOk env) (i : Nat) (msg : String)
    (hex : ∀ a, env.exec i a = ExecOutcome.err msg) :
    ∀ (d : Nat) (s : St), i < s.task.steps.length →
      knownStepTypes.contains (stepOf s i).type = true →
      (stepOf s i).retry_count ≤ (stepOf s i).max_retries →
      (stepOf s i).max_retries - (stepOf s i).retry_count = d →
      (execute_step env i (d + 1) s).2 = some msg ∧
      countInvoke (execute_step env i (d + 1) s).1.trace = countInvoke s.trace + (d + 1) ∧
      (execute_step env i (d + 1) s).1.task.status = AgentStatus.failed ∧
      (execute_step env i (d + 1) s).1.task.error_message =
        some ("Step " ++ (stepOf s i).name ++ " failed: " ++ msg) := by
  intro d
  induction d with
  | zero =>
    intro s hi hk hrc hd
    obtain ⟨s4, hb, hp4, hst4, he4, hr4, hsteps4, hcnt4⟩ :=
      stepTryBody_err hok i s msg hi hk (hex (stepOf s i).retry_count)
    unfold execute_step
    dsimp only
    rw [hb]
    dsimp only
    have hi4 : i < s4.task.steps.length := by
      rw [hsteps4, List.length_set]
      exact hi
    have hfail : stepOf (modStep s4 i fun st =>
        { st with status := StepStatus.failed, error_message := some msg }) i =
        { stepOf s i with status := StepStatus.failed, error_message := some msg } := by
      rw [stepOf_modStep_self _ hi4]
      simp [stepOf_unfold, hsteps4, List.getD_eq_getElem?_getD,
        List.getElem?_set_self (by simpa using hi)]
    have hcond : ¬ ((stepOf (modStep s4 i fun st =>
        { st with status := StepStatus.failed, error_message := some msg }) i).retry_count <
        (stepOf (modStep s4 i fun st =>
          { st with status := StepStatus.failed, error_message := some msg }) i).max_retries) := by
      rw [hfail]
      dsimp only
      omega
    rw [if_neg hcond]
    rw [save_task_ok hok]
    dsimp only
    refine ⟨rfl, ?_, ?_, ?_⟩
    · simp only [broadcast_update_trace, modTask_trace, modStep_trace]
      rw [countInvoke_append, countInvoke_append, countInvoke_save, countInvoke_broadcast]
      omega
    · simp [broadcast_update_task, modTask_task]
    · simp only [broadcast_update_task, modTask_task]
      rw [hfail]
  | succ d ih =>
    intro s hi hk hrc hd
    obtain ⟨s4, hb, hp4, hst4, he4, hr4, hsteps4, hcnt4⟩ :=
      stepTryBody_err hok i s msg hi hk (hex (stepOf s i).retry_count)
    unfold execute_step
    dsimp only
    rw [hb]
    dsimp only
    have hi4 : i < s4.task.steps.length := by
      rw [hsteps4, List.length_set]
      exact hi
    have hfail : stepOf (modStep s4 i fun st =>
        { st with status := StepStatus.failed, error_message := some msg }) i =
        { stepOf s i with status := StepStatus.failed, error_message := some msg } := by
      rw [stepOf_modStep_self _ hi4]
      simp [stepOf_unfold, hsteps4, List.getD_eq_getElem?_getD,
        List.getElem?_set_self (by simpa using hi)]
    have hcond : (stepOf (modStep s4 i fun st =>
        { st with status := StepStatus.failed, error_message := some msg }) i).retry_count <
        (stepOf (modStep s4 i fun st =>
          { st with status := StepStatus.failed, error_message := some msg }) i).max_retries := by
      rw [hfail]
      dsimp only
      omega
    rw [if_pos hcond]
    obtain ⟨ih2, ihcnt, ihst, iherr⟩ := ih (emit
        (modStep (modStep s4 i fun st =>
          { st with status := StepStatus.failed, error_message := some msg }) i
          fun st =>
            { st with retry_count := st.retry_count + 1,
                      status := StepStatus.pending, error_message := none })
        (Ev.sleep (2 ^ ((stepOf (modStep s4 i fun st =>
          { st with status := StepStatus.failed, error_message := some msg }) i).retry_count +
            1))))
      (by simp only [emit_task, modStep_steps, List.length_set]; exact hi4)
      (by simp only [stepOf_unfold, emit_task, modStep_steps, hsteps4,
            List.getD_eq_getElem?_getD, List.set_set,
            List.getElem?_set_self (by simpa using hi), Option.getD_some]
          simpa [stepOf_unfold, List.getD_eq_getElem?_getD] using hk)
      (by simp only [stepOf_unfold, emit_task, modStep_steps, hsteps4,
            List.getD_eq_getElem?_getD, List.set_set,
            List.getElem?_set_self (by simpa using hi), Option.getD_some]
          simp only [stepOf_unfold, List.getD_eq_getElem?_getD] at hrc hd
          omega)
      (by simp only [stepOf_unfold, emit_task, modStep_steps, hsteps4,
            List.getD_eq_getElem?_getD, List.set_set,
            List.getElem?_set_self (by simpa using hi), Option.getD_some]
          simp only [stepOf_unfold, List.getD_eq_getElem?_getD] at hrc hd
          omega)
    refine ⟨ih2, ?_, ihst, ?_⟩
    · rw [ihcnt]
      simp only [emit_trace, modStep_trace]
      rw [countInvoke_append, countInvoke_sleep]
      omega
    · rw [iherr]
      have : stepOf (emit
          (modStep (modStep s4 i fun st =>
            { st with status := StepStatus.failed, error_message := some msg }) i
            fun st =>
              { st with retry_count := st.retry_count + 1,
                        status := StepStatus.pending, error_message := none })
          (Ev.sleep (2 ^ ((stepOf (modStep s4 i fun st =>
            { st with status := StepStatus.failed, error_message := some msg }) i).retry_count +
              1)))) i =
          ({ stepOf s i with
              status := StepStatus.pending,
              retry_count := (stepOf s i).retry_count + 1,
              error_message := none }) := by
        simp only [stepOf_unfold, emit_task, modStep_steps, hsteps4,
          List.getD_eq_getElem?_getD, List.set_set,
          List.getElem?_set_self (by simpa using hi), Option.getD_some]
      rw [this]

theorem mkRat_cent_nonneg (k n : Nat) : 0 ≤ mkRat ((k * 100 : Nat)) n := by
  rw [Rat.mkRat_eq_div]
  positivity

theorem mkRat_cent_le_100 {k n : Nat} (h : k ≤ n) : mkRat ((k * 100 : Nat)) n ≤ 100 := by
  rw [Rat.mkRat_eq_div]
  rcases Nat.eq_zero_or_pos n with hn | hn
  · subst hn
    interval_cases k
    simp
  · rw [div_le_iff₀ (by exact_mod_cast hn)]
    have hk : (k : ℚ) ≤ (n : ℚ) := by exact_mod_cast h
    push_cast
    nlinarith

theorem mkRat_cent_lt_100 {k n : Nat} (h : k < n) : mkRat ((k * 100 : Nat)) n < 100 := by
  rw [Rat.mkRat_eq_div]
  have hn : (0 : ℚ) < n := by
    have : 0 < n := Nat.lt_of_le_of_lt (Nat.zero_le k) h
    exact_mod_cast this
  rw [div_lt_iff₀ hn]
  have hk : (k : ℚ) < (n : ℚ) := by exact_mod_cast h
  push_cast
  nlinarith

theorem mkRat_cent_mono {a b : Nat} (n : Nat) (h : a ≤ b) :
    mkRat ((a * 100 : Nat)) n ≤ mkRat ((b * 100 : Nat)) n := by
  rw [Rat.mkRat_eq_div, Rat.mkRat_eq_div]
  have hn : (0:ℚ) ≤ n := by positivity
  have hab : ((a * 100 : Nat) : ℚ) ≤ ((b * 100 : Nat) : ℚ) := by
    exact_mod_cast Nat.mul_le_mul_right 100 h
  exact div_le_div_of_nonneg_right hab hn

/-- Under `saveOk`, the step loop of `execute` maintains: every persisted
snapshot is `SnapOk`; if the loop completes the task is still RUNNING; and
if a step fails terminally the task is FAILED with progress < 100. -/
theorem executeLoop_saveOk {env : Env} (hok : saveOk env) (n : Nat) :
    ∀ (rem : Nat) (s : St), s.task.steps.length = n → rem ≤ n →
      s.task.status = AgentStatus.running →
      s.task.progress = mkRat (((n - rem) * 100 : Nat)) n →
      (∀ j, (stepOf s j).retry_count ≤ (stepOf s j).max_retries) →
      (∃ d2, (executeLoop env n rem s).1.trace = s.trace ++ d2 ∧
        ∀ t ∈ savesOf d2, SnapOk t) ∧
      ((executeLoop env n rem s).2 = none →
        (executeLoop env n rem s).1.task.status = AgentStatus.running) ∧
      (∀ e, (executeLoop env n rem s).2 = some e →
        (executeLoop env n rem s).1.task.status = AgentStatus.failed ∧
        (executeLoop env n rem s).1.task.progress < 100) := by
  intro rem
  induction rem with
  | zero =>
    intro s hlen hrem hst hp hall
    unfold executeLoop
    exact ⟨⟨[], by simp, by simp [savesOf]⟩, fun _ => hst, fun e he => Option.noConfusion he⟩
  | succ rem ih =>
    intro s hlen hrem hst hp hall
    unfold executeLoop
    dsimp only
    have hi : n - (rem + 1) < s.task.steps.length := by omega
    have hfuel : (stepOf s (n - (rem + 1))).max_retries + 1 -
        (stepOf s (n - (rem + 1))).retry_count =
        ((stepOf s (n - (rem + 1))).max_retries -
          (stepOf s (n - (rem + 1))).retry_count) + 1 := by
      have := hall (n - (rem + 1))
      omega
    rw [hfuel]
    obtain ⟨hExec, hNone⟩ := execute_step_execInv env (n - (rem + 1))
      (((stepOf s (n - (rem + 1))).max_retries - (stepOf s (n - (rem + 1))).retry_count) + 1) s
    obtain ⟨hlen1, hne1, hrc1, hfail1⟩ := execute_step_saveOk_facts hok (n - (rem + 1))
      ((stepOf s (n - (rem + 1))).max_retries - (stepOf s (n - (rem + 1))).retry_count) s
      hi (hall (n - (rem + 1))) rfl
    cases hR1 : execute_step env (n - (rem + 1))
        (((stepOf s (n - (rem + 1))).max_retries -
          (stepOf s (n - (rem + 1))).retry_count) + 1) s with
    | mk s1 r1 =>
      rw [hR1] at hExec hNone hlen1 hne1 hrc1 hfail1
      simp only at hExec hNone hlen1 hne1 hrc1 hfail1
      obtain ⟨⟨d1, htr1, hsnap1⟩, hp1, hst1, hln1⟩ := hExec
      cases r1 with
      | some e =>
        dsimp only
        have hfailed : s1.task.status = AgentStatus.failed := hfail1 e rfl
        have hplt : s1.task.progress < 100 := by
          rw [hp1, hp]
          exact mkRat_cent_lt_100 (by omega)
        refine ⟨⟨d1, htr1, ?_⟩, ?_, ?_⟩
        · intro t ht
          obtain ⟨htp, hts⟩ := hsnap1 t ht
          rcases hts with h2 | h2
          · exact Or.inl ⟨h2.trans hst, by rw [htp, hp]; exact mkRat_cent_le_100 (by omega)⟩
          · exact Or.inr ⟨h2, by rw [htp, hp]; exact mkRat_cent_lt_100 (by omega)⟩
        · intro h2
          exact Option.noConfusion h2
        · intro e2 _
          exact ⟨hfailed, hplt⟩
      | none =>
        dsimp only
        rw [save_task_ok hok]
        dsimp only
        have hstat1 : s1.task.status = AgentStatus.running := (hNone rfl).trans hst
        rw [if_neg (by simp only [modTask_task]; simp [hstat1])]
        have harg : n - (rem + 1) + 1 = n - rem := by omega
        obtain ⟨⟨drec, htrec, hsrec⟩, hbrec, hcrec⟩ := ih
          ({ modTask s1 (fun t => { t with progress := progressOf (n - (rem + 1)) n }) with
             nsave := (modTask s1 (fun t =>
               { t with progress := progressOf (n - (rem + 1)) n })).nsave + 1,
             trace := (modTask s1 (fun t =>
               { t with progress := progressOf (n - (rem + 1)) n })).trace ++
               [Ev.save (modTask s1 (fun t =>
                 { t with progress := progressOf (n - (rem + 1)) n })).task] })
          (by simp only [modTask_task]; simpa using hln1.trans hlen)
          (by omega)
          (by simp only [modTask_task]; simpa using hstat1)
          (by simp only [modTask_task]
              show progressOf (n - (rem + 1)) n = _
              rw [progressOf]
              congr 1
              omega)
          (by intro j
              simp only [stepOf_unfold, modTask_task]
              by_cases hji : j = n - (rem + 1)
              · subst hji
                simpa [stepOf_unfold] using hrc1
              · have hje := hne1 j hji
                simp only [stepOf_unfold] at hje
                rw [hje]
                simpa [stepOf_unfold] using hall j)
        refine ⟨⟨d1 ++ [Ev.save (modTask s1 (fun t =>
            { t with progress := progressOf (n - (rem + 1)) n })).task] ++ drec, ?_, ?_⟩,
          hbrec, hcrec⟩
        · rw [htrec]
          simp only [modTask_trace]
          rw [htr1]
          simp [List.append_assoc]
        · intro t ht
          simp only [savesOf_append, List.mem_append] at ht
          rcases ht with (ht | ht) | ht
          · obtain ⟨htp, hts⟩ := hsnap1 t ht
            rcases hts with h2 | h2
            · exact Or.inl ⟨h2.trans hst, by rw [htp, hp]; exact mkRat_cent_le_100 (by omega)⟩
            · exact Or.inr ⟨h2, by rw [htp, hp]; exact mkRat_cent_lt_100 (by omega)⟩
          · rw [show savesOf [Ev.save (modTask s1 (fun t =>
              { t with progress := progressOf (n - (rem + 1)) n })).task] =
              [(modTask s1 (fun t =>
                { t with progress := progressOf (n - (rem + 1)) n })).task] from rfl] at ht
            rw [List.mem_singleton] at ht
            subst ht
            refine Or.inl ⟨by simp [modTask_task, hstat1], ?_⟩
            simp only [modTask_task]
            show progressOf (n - (rem + 1)) n ≤ 100
            rw [progressOf]
            have : n - (rem + 1) + 1 ≤ n := by omega
            exact mkRat_cent_le_100 this
          · exact hsrec t ht

/-- Retry counters of `dummyStep` and of every step a plan produces start
within their maximum. -/
theorem rc_le_of_forall_mem {l : List AgentStep}
    (h : ∀ st ∈ l, st.retry_count ≤ st.max_retries) (j : Nat) :
    (l.getD j dummyStep).retry_count ≤ (l.getD j dummyStep).max_retries := by
  rw [List.getD_eq_getElem?_getD]
  rcases Nat.lt_or_ge j l.length with hj | hj
  · rw [List.getElem?_eq_getElem hj]
    exact h _ (List.getElem_mem hj)
  · rw [List.getElem?_eq_none hj]
    simp [dummyStep]

theorem defaultPlan_rc (st : AgentStep) (h : st ∈ defaultPlan) :
    st.retry_count ≤ st.max_retries := by
  fin_cases h <;> simp [defaultPlan]

theorem plannedSteps_rc (ps : List PlanStep) (st : AgentStep)
    (h : st ∈ ps.enum.map (fun ip => mkPlannedStep ip.1 ip.2)) :
    st.retry_count ≤ st.max_retries := by
  rw [List.mem_map] at h
  obtain ⟨ip, _, rfl⟩ := h
  simp [mkPlannedStep]

/-- An `execute_step` whose try block succeeds returns success directly. -/
theorem execute_step_of_body_none {env : Env} {i : Nat} {s s6 : St} (fuel : Nat)
    (hb : stepTryBody env i s = (s6, none)) :
    execute_step env i (fuel + 1) s = (s6, none) := by
  unfold execute_step
  dsimp only
  rw [hb]

theorem mkRat_cent_zero (n : Nat) : mkRat (((n - n) * 100 : Nat)) n = 0 := by
  rw [Nat.sub_self]
  simp [Rat.mkRat_eq_div]

theorem storeAfterWrites_save_last (init : Option AgentTask) (pre : List Ev) (x : AgentTask) :
    storeAfterWrites init (savesOf (pre ++ [Ev.save x])) = some x := by
  rw [savesOf_append, storeAfterWrites_append]
  rfl

theorem finalize_task_status (s : St) : (finalize_task s).task.status = s.task.status := rfl

theorem finalize_task_progress (s : St) : (finalize_task s).task.progress = s.task.progress := rfl

theorem finalize_task_trace (s : St) : (finalize_task s).trace = s.trace := rfl

theorem finalize_task_result (s : St) : (finalize_task s).task.result.isSome = true := rfl

/-- Under `saveOk`, the post-planning tail of `execute`: every persisted
snapshot with progress 100 is RUNNING or COMPLETED; a normal return leaves
the task COMPLETED with a populated result and the trace ending in the save
of the final task; an error leaves progress below 100 and the task
FAILED. -/
theorem executeTail_saveOk {env : Env} (hok : saveOk env) (s3 : St)
    (hst : s3.task.status = AgentStatus.running)
    (hp0 : s3.task.progress = 0)
    (hall : ∀ j, (stepOf s3 j).retry_count ≤ (stepOf s3 j).max_retries) :
    (∃ d2, (executeTail env s3).1.trace = s3.trace ++ d2 ∧
      ∀ sn ∈ savesOf d2, sn.progress = 100 →
        sn.status = AgentStatus.running ∨ sn.status = AgentStatus.completed) ∧
    ((executeTail env s3).2 = none →
      (executeTail env s3).1.task.status = AgentStatus.completed ∧
      (executeTail env s3).1.task.result.isSome = true ∧
      ∃ pre, (executeTail env s3).1.trace =
        pre ++ [Ev.save (executeTail env s3).1.task]) ∧
    (∀ e, (executeTail env s3).2 = some e →
      (executeTail env s3).1.task.progress < 100 ∧
      (executeTail env s3).1.task.status = AgentStatus.failed) := by
  unfold executeTail
  dsimp only
  obtain ⟨⟨d2, htr, hsnap⟩, hnone, hsome⟩ :=
    executeLoop_saveOk hok s3.task.steps.length s3.task.steps.length s3 rfl (le_refl _)
      hst (by rw [hp0]; exact (mkRat_cent_zero _).symm) hall
  cases hL : executeLoop env s3.task.steps.length s3.task.steps.length s3 with
  | mk s4 r4 =>
    rw [hL] at htr hnone hsome
    simp only at htr hnone hsome
    cases r4 with
    | some e =>
      dsimp only
      refine ⟨⟨d2, htr, ?_⟩, ?_, ?_⟩
      · intro sn hm h100
        rcases hsnap sn hm with h2 | h2
        · exact Or.inl h2.1
        · rw [h100] at h2
          exact absurd h2.2 (lt_irrefl 100)
      · intro h2
        exact Option.noConfusion h2
      · intro e2 he2
        obtain ⟨hfa, hpl⟩ := hsome e rfl
        exact ⟨hpl, hfa⟩
    | none =>
      dsimp only
      have hrun : s4.task.status = AgentStatus.running := hnone rfl
      rw [if_pos hrun]
      rw [save_task_ok hok]
      dsimp only
      refine ⟨⟨d2 ++ [Ev.save (finalize_task (modTask s4 (fun t =>
          { t with status := AgentStatus.completed }))).task], ?_, ?_⟩, ?_, ?_⟩
      · rw [finalize_task_trace, modTask_trace, htr, List.append_assoc]
      · intro sn hm h100
        rw [savesOf_append, List.mem_append] at hm
        rcases hm with hm | hm
        · rcases hsnap sn hm with h2 | h2
          · exact Or.inl h2.1
          · rw [h100] at h2
            exact absurd h2.2 (lt_irrefl 100)
        · rw [savesOf_save, List.mem_singleton] at hm
          subst hm
          refine Or.inr ?_
          rw [finalize_task_status, modTask_task]
      · intro _
        refine ⟨by rw [finalize_task_status, modTask_task], by rw [finalize_task_result], ?_⟩
        exact ⟨(finalize_task (modTask s4 (fun t =>
          { t with status := AgentStatus.completed }))).trace, rfl⟩
      · intro e2 he2
        exact Option.noConfusion he2

/-- Under `saveOk`, the whole try block of `execute` starting from a fresh
task: every persisted snapshot with progress 100 is RUNNING or COMPLETED;
a normal return is COMPLETED with populated result and trace ending in the
final save; an error leaves progress below 100. -/
theorem executeBody_saveOk {env : Env} (hok : saveOk env) (t : AgentTask)
    (hprog : t.progress = 0) :
    (∀ sn ∈ savesOf (executeBody env (initSt t)).1.trace, sn.progress = 100 →
      sn.status = AgentStatus.running ∨ sn.status = AgentStatus.completed) ∧
    ((executeBody env (initSt t)).2 = none →
      (executeBody env (initSt t)).1.task.status = AgentStatus.completed ∧
      (executeBody env (initSt t)).1.task.result.isSome = true ∧
      ∃ pre, (executeBody env (initSt t)).1.trace =
        pre ++ [Ev.save (executeBody env (initSt t)).1.task]) ∧
    (∀ e, (executeBody env (initSt t)).2 = some e →
      (executeBody env (initSt t)).1.task.progress < 100) := by
  unfold executeBody
  dsimp only
  rw [save_task_ok hok]
  dsimp only
  cases hpl : env.plan with
  | err m =>
    unfold generate_plan
    rw [hpl]
    refine ⟨?_, ?_, ?_⟩
    · intro sn hm h100
      simp only [modTask_trace, savesOf] at hm
      simp only [initSt, List.nil_append, List.filterMap_cons, List.filterMap_nil] at hm
      rw [List.mem_singleton] at hm
      subst hm
      rw [modTask_task] at h100
      simp only [initSt] at h100
      rw [hprog] at h100
      norm_num at h100
    · intro h2
      exact Option.noConfusion h2
    · intro e he
      simp only [modTask_task, initSt]
      rw [hprog]
      norm_num
  | response op =>
    unfold generate_plan
    rw [hpl]
    cases op with
    | none =>
      dsimp only
      obtain ⟨⟨d2, htr, hsnap⟩, hnone, hsome⟩ := executeTail_saveOk hok
        (modTask ({ modTask (initSt t) (fun t2 => { t2 with status := AgentStatus.running }) with
          nsave := (modTask (initSt t) (fun t2 =>
            { t2 with status := AgentStatus.running })).nsave + 1,
          trace := (modTask (initSt t) (fun t2 =>
            { t2 with status := AgentStatus.running })).trace ++
            [Ev.save (modTask (initSt t) (fun t2 =>
              { t2 with status := AgentStatus.running })).task] })
          (fun t2 => { t2 with steps := defaultPlan }))
        (by simp [modTask_task])
        (by simp [modTask_task, initSt, hprog])
        (by intro j
            simp only [stepOf_unfold, modTask_task]
            exact rc_le_of_forall_mem defaultPlan_rc j)
      refine ⟨?_, hnone, fun e he => (hsome e he).1⟩
      · intro sn hm h100
        rw [htr] at hm
        simp only [modTask_trace, initSt, List.nil_append] at hm
        rw [savesOf_append, List.mem_append] at hm
        rcases hm with hm | hm
        · rw [savesOf_save, List.mem_singleton] at hm
          subst hm
          rw [modTask_task] at h100
          simp only [initSt] at h100
          rw [hprog] at h100
          norm_num at h100
        · exact hsnap sn hm h100
    | some ps =>
      dsimp only
      obtain ⟨⟨d2, htr, hsnap⟩, hnone, hsome⟩ := executeTail_saveOk hok
        (modTask ({ modTask (initSt t) (fun t2 => { t2 with status := AgentStatus.running }) with
          nsave := (modTask (initSt t) (fun t2 =>
            { t2 with status := AgentStatus.running })).nsave + 1,
          trace := (modTask (initSt t) (fun t2 =>
            { t2 with status := AgentStatus.running })).trace ++
            [Ev.save (modTask (initSt t) (fun t2 =>
              { t2 with status := AgentStatus.running })).task] })
          (fun t2 => { t2 with steps := ps.enum.map (fun ip => mkPlannedStep ip.1 ip.2) }))
        (by simp [modTask_task])
        (by simp [modTask_task, initSt, hprog])
        (by intro j
            simp only [stepOf_unfold, modTask_task]
            exact rc_le_of_forall_mem (plannedSteps_rc ps) j)
      refine ⟨?_, hnone, fun e he => (hsome e he).1⟩
      · intro sn hm h100
        rw [htr] at hm
        simp only [modTask_trace, initSt, List.nil_append] at hm
        rw [savesOf_append, List.mem_append] at hm
        rcases hm with hm | hm
        · rw [savesOf_save, List.mem_singleton] at hm
          subst hm
          rw [modTask_task] at h100
          simp only [initSt] at h100
          rw [hprog] at h100
          norm_num at h100
        · exact hsnap sn hm h100

/-- Under `saveOk`, an engine run from a fresh task: every persisted
snapshot with progress 100 is RUNNING or COMPLETED; the final in-memory
task is COMPLETED with populated result or FAILED with error_message set;
and the trace ends with the save of that final task. -/
theorem execute_saveOk_summary {env : Env} (hok : saveOk env) (t : AgentTask)
    (hprog : t.progress = 0) :
    (∀ sn ∈ savesOf (execute env (initSt t)).1.trace, sn.progress = 100 →
      sn.status = AgentStatus.running ∨ sn.status = AgentStatus.completed) ∧
    (((execute env (initSt t)).1.task.status = AgentStatus.completed ∧
       (execute env (initSt t)).1.task.result.isSome = true) ∨
     ((execute env (initSt t)).1.task.status = AgentStatus.failed ∧
       (execute env (initSt t)).1.task.error_message.isSome = true)) ∧
    (∃ pre, (execute env (initSt t)).1.trace =
      pre ++ [Ev.save (execute env (initSt t)).1.task]) := by
  obtain ⟨hP, hnone, hsome⟩ := executeBody_saveOk hok t hprog
  unfold execute
  cases hB : executeBody env (initSt t) with
  | mk s1 r1 =>
    rw [hB] at hP hnone hsome
    simp only at hP hnone hsome
    cases r1 with
    | none =>
      dsimp only
      obtain ⟨hc, hr, pre, hpre⟩ := hnone rfl
      exact ⟨hP, Or.inl ⟨hc, hr⟩, pre, hpre⟩
    | some e =>
      dsimp only
      rw [save_task_ok hok]
      dsimp only
      have hlt : s1.task.progress < 100 := hsome e rfl
      refine ⟨?_, Or.inr ⟨by simp, by simp⟩, ?_⟩
      · intro sn hm h100
        simp only [modTask_trace, modTask_task, savesOf_append, savesOf_save,
          List.mem_append, List.mem_singleton] at hm
        rcases hm with hm | hm
        · exact hP sn hm h100
        · subst hm
          simp only at h100
          rw [h100] at hlt
          exact absurd hlt (lt_irrefl 100)
      · exact ⟨s1.trace, by simp⟩

/-! ### Claim theorems: concrete refutations -/

/-- Claim C1 (code bug): a cancel request between step 1 and step 2 of a
running two-step task is accepted by the endpoint and writes a CANCELLED
snapshot to the store, yet the engine — which only ever checks its in-memory
`task.status`, never re-reading the store — executes step 2 anyway and its
final save overwrites the CANCELLED snapshot with COMPLETED: both steps end
COMPLETED and exactly two executor invocations happen, contradicting the
claimed behaviour (task CANCELLED, step 2 left PENDING, no further step). -/
theorem c1_cancellation_not_observed :
    c1cancel.1 ≠ CancelOutcome.rejected ∧
    c1cancel.1 ≠ CancelOutcome.notFound ∧
    c1cancel.2.map (fun t => t.status) = some AgentStatus.cancelled ∧
    c1final.map (fun t => t.status) = some AgentStatus.completed ∧
    c1final.map (fun t => t.steps.map (fun st => st.status)) =
      some ([StepStatus.completed, StepStatus.completed]) ∧
    countInvoke (execute_agent_task env2 sampleTask).trace = 2 := by
  decide

/-- Claim C2 (counterexample): when the planner invocation itself raises
(for example the AI-service call times out), `generate_plan` has no fallback
for it — only the JSON parse is inside the try — so the exception escapes to
the top-level handler and the task ends FAILED, refuting "a planning failure
never causes the task to end in status FAILED". -/
theorem c2_planner_exception_fails_task :
    (execute_agent_task envPlanErr sampleTask).task.status = AgentStatus.failed ∧
    (execute_agent_task envPlanErr sampleTask).task.error_message = some ("ai timeout") ∧
    (create_and_run envPlanErr sampleTask).map (fun t => t.status) =
      some AgentStatus.failed := by
  decide

/-- Claim C3 (counterexample): with an executor that always raises "boom" on
the default plan's first step "Analyze Requirements", the task does end
FAILED, but the top-level handler of `execute` overwrites `error_message`
with the raw exception text, so the final task (and final persisted
snapshot) carries "boom", which does not name the failed step. -/
theorem c3_final_error_does_not_name_step :
    (execute_agent_task envFail sampleTask).task.status = AgentStatus.failed ∧
    (execute_agent_task envFail sampleTask).task.error_message = some ("boom") ∧
    (create_and_run envFail sampleTask).map (fun t => t.error_message) =
      some (some ("boom")) ∧
    ¬ List.IsInfix (String.data ("Analyze Requirements")) (String.data ("boom")) := by
  decide

/-- Claim C4 (counterexample): `save_task` has no try/except, so a failing
store write raises; here the very first save fails and the top-level handler
marks the task FAILED with the store error as its message — a store failure
does change task status and error_message.  The same environment with that
one save succeeding completes normally. -/
theorem c4_store_failure_changes_status :
    (execute_agent_task envSaveFail sampleTask).task.status = AgentStatus.failed ∧
    (execute_agent_task envSaveFail sampleTask).task.error_message =
      some ("redis connection lost") ∧
    (execute_agent_task env2 sampleTask).task.status = AgentStatus.completed := by
  decide

/-- Claim C5 (counterexample): a task submitted with the accepted variant
BUG_FIXER is persisted PENDING by the endpoint, but `create_agent` raises
for it and the background wrapper swallows the exception, so the stored
snapshot stays PENDING forever with neither result nor error_message. -/
theorem c5_unknown_variant_stays_pending :
    (create_and_run env2 taskBugFixer).map
      (fun t => (t.status, t.result.isSome, t.error_message.isSome)) =
      some (AgentStatus.pending, false, false) := by
  decide

/-- Claim C6 (counterexample): in the benign two-step run the engine
persists, right after the last step and before the COMPLETED transition, a
snapshot with status RUNNING and progress exactly 100. -/
theorem c6_running_snapshot_with_full_progress :
    ∃ t ∈ savesOf (execute_agent_task env2 sampleTask).trace,
      t.status = AgentStatus.running ∧ t.progress = 100 := by
  decide

/-! ### Claim theorems: confirmations -/

/-- Claim C9 (confirmed): the cancel endpoint rejects a stored task whose
status is COMPLETED, FAILED or CANCELLED and leaves the store unchanged;
for any other stored status it returns the snapshot with status flipped to
CANCELLED and persists exactly that snapshot. -/
theorem c9_cancel_endpoint_spec (t : AgentTask) :
    ((t.status = AgentStatus.completed ∨ t.status = AgentStatus.failed ∨
        t.status = AgentStatus.cancelled) →
      cancel_agent_task (some t) = (CancelOutcome.rejected, some t)) ∧
    (¬ (t.status = AgentStatus.completed ∨ t.status = AgentStatus.failed ∨
        t.status = AgentStatus.cancelled) →
      cancel_agent_task (some t) =
        (CancelOutcome.accepted ({ t with status := AgentStatus.cancelled }),
         some ({ t with status := AgentStatus.cancelled }))) := by
  constructor
  · intro h
    simp [cancel_agent_task, h]
  · intro h
    simp [cancel_agent_task, h]

/-- Witness for `c9_cancel_endpoint_spec` at concrete inputs: a COMPLETED
task is rejected with the store unchanged, and the freshly created PENDING
task is cancelled and persisted. -/
theorem c9_cancel_endpoint_spec_witness :
    cancel_agent_task (some ({ sampleTask with status := AgentStatus.completed })) =
      (CancelOutcome.rejected, some ({ sampleTask with status := AgentStatus.completed })) ∧
    cancel_agent_task (some sampleTask) =
      (CancelOutcome.accepted ({ sampleTask with status := AgentStatus.cancelled }),
       some ({ sampleTask with status := AgentStatus.cancelled })) := by
  constructor
  · exact (c9_cancel_endpoint_spec ({ sampleTask with status := AgentStatus.completed })).1
      (Or.inl rfl)
  · exact (c9_cancel_endpoint_spec sampleTask).2 (by decide)

/-- Claim C10 (confirmed): the engine never reads the task back from the
store — its run is a function of the environment and the in-memory task
only — and every save writes the whole snapshot, so a concurrent store
write `w` landing between two engine saves (position `k`, with at least one
engine save following) is overwritten: the final store content equals the
engine's last saved snapshot, whatever `w` and whatever the store held
initially. -/
theorem c10_engine_save_overwrites_concurrent_write
    (env : Env) (t w : AgentTask) (init init2 : Option AgentTask) (k : Nat)
    (h : k < (savesOf (execute_agent_task env t).trace).length) :
    storeAfterWrites init
        ((savesOf (execute_agent_task env t).trace).take k ++ w ::
          (savesOf (execute_agent_task env t).trace).drop k) =
      storeAfterWrites init2 (savesOf (execute_agent_task env t).trace) := by
  set S := savesOf (execute_agent_task env t).trace with hS
  have hdrop : S.drop k ≠ [] := by
    intro hnil
    have := List.length_drop k S
    rw [hnil] at this
    simp at this
    omega
  have hSne : S ≠ [] := by
    intro hnil
    rw [hnil] at h
    simp at h
  rw [storeAfterWrites_last _ _ (by simp), storeAfterWrites_last _ _ hSne]
  rw [List.getLast?_append_of_ne_nil _ (by simp)]
  have hcons : (w :: S.drop k).getLast? = (S.drop k).getLast? := by
    have : w :: S.drop k = [w] ++ S.drop k := rfl
    rw [this, List.getLast?_append_of_ne_nil _ hdrop]
  rw [hcons]
  conv_rhs => rw [← List.take_append_drop k S]
  rw [List.getLast?_append_of_ne_nil _ hdrop]

/-- Witness for `c10_engine_save_overwrites_concurrent_write`: in the benign
two-step run, a foreign write after the first engine save is overwritten and
the store ends identical to the engine-only fold. -/
theorem c10_overwrite_witness :
    1 < (savesOf (execute_agent_task env2 sampleTask).trace).length ∧
    storeAfterWrites (some sampleTask)
        ((savesOf (execute_agent_task env2 sampleTask).trace).take 1 ++ taskBugFixer ::
          (savesOf (execute_agent_task env2 sampleTask).trace).drop 1) =
      storeAfterWrites none (savesOf (execute_agent_task env2 sampleTask).trace) := by
  refine ⟨by decide, ?_⟩
  exact c10_engine_save_overwrites_concurrent_write env2 sampleTask taskBugFixer
    (some sampleTask) none 1 (by decide)

/-- Claim C2 (amended): a planner response that fails to parse makes
`generate_plan` substitute the built-in default plan and return normally
(first conjunct, for every environment and state); with that fallback plan
and working executors the task runs all five default steps to COMPLETED
(second conjunct, the fallback run evaluated concretely). -/
theorem c2_amended_parse_failure_falls_back :
    (∀ (env : Env) (s : St), env.plan = PlanOutcome.response none →
      generate_plan env s = (modTask s (fun t => { t with steps := defaultPlan }), none)) ∧
    ((execute_agent_task envFallback sampleTask).task.status = AgentStatus.completed ∧
     (execute_agent_task envFallback sampleTask).task.steps.map (fun st => st.name) =
       defaultPlan.map (fun st => st.name) ∧
     countInvoke (execute_agent_task envFallback sampleTask).trace = 5) := by
  constructor
  · intro env s hp
    unfold generate_plan
    rw [hp]
  · refine ⟨by decide, by decide, by decide⟩

/-- Witness for `c2_amended_parse_failure_falls_back` at a concrete
environment and state. -/
theorem c2_amended_witness :
    generate_plan envFallback (initSt sampleTask) =
      (modTask (initSt sampleTask) (fun t => { t with steps := defaultPlan }), none) :=
  c2_amended_parse_failure_falls_back.1 envFallback (initSt sampleTask) rfl

/-- Claim C3 (amended): a known-type step whose executor raises the same
error on every invocation, starting from a zero retry counter, causes
exactly `max_retries + 1` executor invocations; the Step Runner then
re-raises, leaves the task FAILED and sets an error_message naming the
failed step.  (The top-level handler of `execute` later overwrites that
message with the raw failure text — see the counterexample.) -/
theorem c3_amended_retry_exhaustion (env : Env) (i : Nat) (msg : String) (s : St)
    (hok : saveOk env)
    (hex : ∀ a, env.exec i a = ExecOutcome.err msg)
    (hi : i < s.task.steps.length)
    (hk : knownStepTypes.contains (stepOf s i).type = true)
    (hrc : (stepOf s i).retry_count = 0) :
    (execute_step env i ((stepOf s i).max_retries + 1) s).2 = some msg ∧
    countInvoke (execute_step env i ((stepOf s i).max_retries + 1) s).1.trace =
      countInvoke s.trace + ((stepOf s i).max_retries + 1) ∧
    (execute_step env i ((stepOf s i).max_retries + 1) s).1.task.status =
      AgentStatus.failed ∧
    (execute_step env i ((stepOf s i).max_retries + 1) s).1.task.error_message =
      some ("Step " ++ (stepOf s i).name ++ " failed: " ++ msg) :=
  execute_step_alwaysFail hok i msg hex (stepOf s i).max_retries s hi hk
    (by omega) (by omega)

/-- Witness for `c3_amended_retry_exhaustion`: the default plan's first step
with an always-failing executor is invoked `3 + 1` times, and the task is
FAILED with a message naming "Analyze Requirements". -/
theorem c3_amended_retry_witness :
    (execute_step envFail 0 ((stepOf c3state 0).max_retries + 1) c3state).2 =
      some ("boom") ∧
    countInvoke (execute_step envFail 0 ((stepOf c3state 0).max_retries + 1) c3state).1.trace =
      countInvoke c3state.trace + ((stepOf c3state 0).max_retries + 1) ∧
    (execute_step envFail 0 ((stepOf c3state 0).max_retries + 1) c3state).1.task.status =
      AgentStatus.failed ∧
    (execute_step envFail 0 ((stepOf c3state 0).max_retries + 1) c3state).1.task.error_message =
      some ("Step " ++ (stepOf c3state 0).name ++ " failed: " ++ "boom") :=
  c3_amended_retry_exhaustion envFail 0 ("boom") c3state (fun _ => rfl) (fun _ => rfl)
    (by decide) (by decide) (by decide)

/-- Claim C8 (confirmed): a step whose type tag matches no executor branch
is treated as a no-op success — `execute_step` returns without raising, the
step is marked COMPLETED, the owning task's status is unchanged and no
executor is invoked (first conjunct, for every environment with working
saves); in a concrete run containing only such a step the task still ends
COMPLETED with progress 100 (second conjunct, so progress advances past the
unknown step). -/
theorem c8_unknown_step_type_noop :
    (∀ (env : Env) (i : Nat) (s : St) (fuel : Nat), saveOk env →
      i < s.task.steps.length →
      knownStepTypes.contains (stepOf s i).type = false →
      ∃ s6, execute_step env i (fuel + 1) s = (s6, none) ∧
        (stepOf s6 i).status = StepStatus.completed ∧
        s6.task.status = s.task.status ∧
        countInvoke s6.trace = countInvoke s.trace) ∧
    ((execute_agent_task envUnknownStep sampleTask).task.status = AgentStatus.completed ∧
     (execute_agent_task envUnknownStep sampleTask).task.progress = 100 ∧
     (execute_agent_task envUnknownStep sampleTask).task.steps.map (fun st => st.status) =
       [StepStatus.completed] ∧
     countInvoke (execute_agent_task envUnknownStep sampleTask).trace = 0) := by
  constructor
  · intro env i s fuel hok hi hk
    obtain ⟨s6, hb, hp6, hst6, he6, hr6, hsteps6, hcnt6⟩ := stepTryBody_unknown hok i s hi hk
    refine ⟨s6, execute_step_of_body_none fuel hb, ?_, hst6, hcnt6⟩
    simp [stepOf_unfold, hsteps6, List.getD_eq_getElem?_getD,
      List.getElem?_set_self (by simpa using hi)]
  · refine ⟨by decide, by decide, by decide, by decide⟩

/-- Witness for `c8_unknown_step_type_noop` at a concrete unknown-type
step. -/
theorem c8_unknown_step_witness :
    ∃ s6, execute_step env2 0 (3 + 1) c8state = (s6, none) ∧
      (stepOf s6 0).status = StepStatus.completed ∧
      s6.task.status = c8state.task.status ∧
      countInvoke s6.trace = countInvoke c8state.trace :=
  c8_unknown_step_type_noop.1 env2 0 c8state 3 (fun _ => rfl) (by decide) (by decide)

/-- Claim C4 (amended): a Notification Hub delivery failure is swallowed —
`broadcast_update` never raises and leaves the task, the sequence of
persisted snapshots, and the store-write counter unchanged — whereas a
State Store failure is uncaught and ends the sample run FAILED with the
store error recorded as the error message. -/
theorem c4_amended_notify_swallowed :
    (∀ (env : Env) (s : St), (broadcast_update env s).task = s.task ∧
      savesOf (broadcast_update env s).trace = savesOf s.trace ∧
      (broadcast_update env s).nsave = s.nsave) ∧
    ((execute_agent_task envSaveFail sampleTask).task.status = AgentStatus.failed ∧
     (execute_agent_task envSaveFail sampleTask).task.error_message =
       some ("redis connection lost")) := by
  refine ⟨fun env s => ⟨rfl, ?_, rfl⟩, by decide⟩
  simp [broadcast_update, savesOf_append, savesOf_broadcast]

/-- Claim C5 (amended): with a reliable store, a FEATURE_IMPLEMENTER task is
driven to a terminal persisted snapshot — COMPLETED with a result, or FAILED
with an error message — while any other accepted variant is left exactly as
submitted (permanently PENDING), because the factory raises before execution
and the background wrapper swallows the exception. -/
theorem c5_amended_terminal_or_stuck {env : Env} (t : AgentTask)
    (hok : saveOk env) (hprog : t.progress = 0) :
    (t.agent_type = AgentType.feature_implementer →
      ∃ fin, create_and_run env t = some fin ∧
        ((fin.status = AgentStatus.completed ∧ fin.result.isSome = true) ∨
         (fin.status = AgentStatus.failed ∧ fin.error_message.isSome = true))) ∧
    (t.agent_type ≠ AgentType.feature_implementer →
      create_and_run env t = some t) := by
  constructor
  · intro hft
    obtain ⟨_, hterm, pre, hpre⟩ := execute_saveOk_summary hok t hprog
    refine ⟨(execute env (initSt t)).1.task, ?_, hterm⟩
    unfold create_and_run execute_agent_task create_agent
    rw [if_pos hft]
    dsimp only
    rw [hpre]
    exact storeAfterWrites_save_last _ pre _
  · intro hne
    unfold create_and_run execute_agent_task create_agent
    rw [if_neg hne]
    rfl

theorem c5_amended_witness :
    saveOk env2 ∧ sampleTask.progress = 0 ∧
    (∃ fin, create_and_run env2 sampleTask = some fin ∧
      ((fin.status = AgentStatus.completed ∧ fin.result.isSome = true) ∨
       (fin.status = AgentStatus.failed ∧ fin.error_message.isSome = true))) :=
  ⟨fun _ => rfl, rfl,
    (c5_amended_terminal_or_stuck sampleTask (fun _ => rfl) rfl).1 rfl⟩

/-- Claim C6 (amended): with a reliable store and a fresh task, every
persisted snapshot whose progress is 100 has status RUNNING or COMPLETED;
in particular no FAILED snapshot ever carries progress 100, while the
snapshot saved right after the last step (before the COMPLETED transition)
is RUNNING at 100. -/
theorem c6_amended_full_progress_snapshots {env : Env} (t : AgentTask)
    (hok : saveOk env) (hprog : t.progress = 0) :
    ∀ sn ∈ savesOf (execute_agent_task env t).trace, sn.progress = 100 →
      sn.status = AgentStatus.running ∨ sn.status = AgentStatus.completed := by
  intro sn hm h100
  unfold execute_agent_task at hm
  cases hca : create_agent t with
  | ok u =>
    rw [hca] at hm
    exact (execute_saveOk_summary hok t hprog).1 sn hm h100
  | error m =>
    rw [hca] at hm
    exact absurd hm (by simp [initSt, savesOf])

theorem c6_amended_witness :
    saveOk env2 ∧ sampleTask.progress = 0 ∧ c6snap.progress = 100 ∧
    (c6snap.status = AgentStatus.running ∨ c6snap.status = AgentStatus.completed) :=
  ⟨fun _ => rfl, rfl, by decide,
    @c6_amended_full_progress_snapshots env2 sampleTask (fun _ => rfl) rfl c6snap
      (by decide) (by decide)⟩

theorem progs_nil : progs [] = [] := rfl

theorem progs_save (t : AgentTask) : progs [Ev.save t] = [t.progress] := rfl

theorem progs_append (a b : List Ev) : progs (a ++ b) = progs a ++ progs b := by
  simp [progs, savesOf_append]

theorem chain_qle_of_le {p q : ℚ} {l : List ℚ} (h : List.Chain qle p l) (hp : q ≤ p) :
    List.Chain qle q l := by
  cases h with
  | nil => exact List.Chain.nil
  | cons hab hch => exact List.Chain.cons (le_trans hp hab) hch

theorem chain_qle_all {l : List ℚ} : ∀ {p : ℚ}, List.Chain qle p l → ∀ x ∈ l, p ≤ x := by
  induction l with
  | nil => intro p _ x hx; cases hx
  | cons a l ih =>
    intro p h x hx
    cases h with
    | cons hab hch =>
      rcases List.mem_cons.mp hx with h1 | h1
      · rw [h1]; exact hab
      · exact le_trans hab (ih hch x h1)

theorem chain_qle_of_all_eq {p : ℚ} {l : List ℚ} (h : ∀ x ∈ l, x = p) :
    List.Chain qle p l := by
  induction l with
  | nil => exact List.Chain.nil
  | cons a l ih =>
    have ha : a = p := h a (List.mem_cons_self a l)
    subst ha
    exact List.Chain.cons (le_refl a) (ih (fun x hx => h x (List.mem_cons_of_mem a hx)))

theorem getLastD_all_eq {l : List ℚ} : ∀ {p : ℚ}, (∀ x ∈ l, x = p) → l.getLastD p = p := by
  induction l with
  | nil => intro p _; rfl
  | cons a l ih =>
    intro p h
    have ha : a = p := h a (List.mem_cons_self a l)
    rw [List.getLastD_cons p a l, ha]
    exact ih (fun x hx => (h x (List.mem_cons_of_mem a hx)).trans ha.symm ▸
      h x (List.mem_cons_of_mem a hx))

theorem getLastD_append_q (l2 : List ℚ) : ∀ (l1 : List ℚ) (d : ℚ),
    (l1 ++ l2).getLastD d = l2.getLastD (l1.getLastD d) := by
  intro l1
  induction l1 with
  | nil => intro d; rfl
  | cons a l1 ih =>
    intro d
    rw [List.cons_append, List.getLastD_cons d a (l1 ++ l2), List.getLastD_cons d a l1, ih]

theorem chain_qle_append {l2 : List ℚ} : ∀ {p : ℚ} {l1 : List ℚ},
    List.Chain qle p l1 → List.Chain qle (l1.getLastD p) l2 →
    List.Chain qle p (l1 ++ l2) := by
  intro p l1
  induction l1 generalizing p with
  | nil => intro _ h2; exact h2
  | cons a l1 ih =>
    intro h1 h2
    cases h1 with
    | cons hab hch =>
      rw [List.getLastD_cons p a l1] at h2
      exact List.Chain.cons hab (ih hch h2)

theorem progPhase_refl (s : St) : ProgPhase s s :=
  ⟨[], by simp, List.Chain.nil, le_refl _, fun h => ⟨by simp [progs_nil], h⟩⟩

theorem progPhase_trans {s1 s2 s3 : St} (h12 : ProgPhase s1 s2) (h23 : ProgPhase s2 s3) :
    ProgPhase s1 s3 := by
  obtain ⟨d1, ht1, hc1, hl1, hb1⟩ := h12
  obtain ⟨d2, ht2, hc2, hl2, hb2⟩ := h23
  refine ⟨d1 ++ d2, by rw [ht2, ht1, List.append_assoc], ?_, ?_, ?_⟩
  · rw [progs_append]
    exact chain_qle_append hc1 (chain_qle_of_le hc2 hl1)
  · rw [progs_append, getLastD_append_q]
    cases hd2 : progs d2 with
    | nil =>
      rw [hd2] at hl2
      exact le_trans hl1 hl2
    | cons a l =>
      rw [hd2] at hl2
      rw [List.getLastD_cons ((progs d1).getLastD s1.task.progress) a l]
      rw [List.getLastD_cons s2.task.progress a l] at hl2
      exact hl2
  · intro h100
    obtain ⟨hb1a, hb1b⟩ := hb1 h100
    obtain ⟨hb2a, hb2b⟩ := hb2 hb1b
    refine ⟨?_, hb2b⟩
    intro x hx
    rw [progs_append, List.mem_append] at hx
    rcases hx with hx | hx
    · exact hb1a x hx
    · exact hb2a x hx

theorem progPhase_of_execInv {s s2 : St} (h : ExecInv s s2) : ProgPhase s s2 := by
  obtain ⟨⟨d, ht, hs⟩, hp, _, _⟩ := h
  have hall : ∀ x ∈ progs d, x = s.task.progress := by
    intro x hx
    obtain ⟨t, htm, hxe⟩ := List.mem_map.mp hx
    rw [← hxe]
    exact (hs t htm).1
  refine ⟨d, ht, chain_qle_of_all_eq hall, ?_, ?_⟩
  · rw [getLastD_all_eq hall, hp]
  · intro h100
    refine ⟨fun x hx => ?_, by rw [hp]; exact h100⟩
    rw [hall x hx]
    exact h100

theorem progPhase_keep {s s2 : St} (ht : s2.trace = s.trace)
    (hp : s2.task.progress = s.task.progress) : ProgPhase s s2 :=
  ⟨[], by rw [ht, List.append_nil], List.Chain.nil, le_of_eq hp.symm,
   fun h => ⟨by simp [progs_nil], by rw [hp]; exact h⟩⟩

theorem progPhase_up {s s2 : St} (ht : s2.trace = s.trace)
    (hp : s.task.progress ≤ s2.task.progress) (h100 : s2.task.progress ≤ 100) :
    ProgPhase s s2 :=
  ⟨[], by rw [ht, List.append_nil], List.Chain.nil, hp,
   fun _ => ⟨by simp [progs_nil], h100⟩⟩

theorem progPhase_save (env : Env) (s : St) : ProgPhase s (save_task env s).1 := by
  unfold save_task
  cases h : env.saveOutcome s.nsave with
  | none =>
    dsimp only
    refine ⟨[Ev.save s.task], rfl, ?_, ?_, ?_⟩
    · exact List.Chain.cons (le_refl _) List.Chain.nil
    · rw [progs_save, List.getLastD_cons s.task.progress s.task.progress []]
      exact le_refl _
    · intro h100
      refine ⟨fun x hx => ?_, h100⟩
      rw [progs_save, List.mem_singleton] at hx
      rw [hx]
      exact h100
  | some m =>
    dsimp only
    exact progPhase_keep rfl rfl

theorem generate_plan_keep (env : Env) (s : St) :
    (generate_plan env s).1.trace = s.trace ∧
    (generate_plan env s).1.task.progress = s.task.progress := by
  unfold generate_plan
  cases env.plan with
  | err m => exact ⟨rfl, rfl⟩
  | response o =>
    cases o with
    | none => exact ⟨rfl, rfl⟩
    | some ps => exact ⟨rfl, rfl⟩

/-- Through the step loop, persisted progress values form a non-decreasing
chain bounded by 100, and the in-memory progress never decreases. -/
theorem executeLoop_progPhase (env : Env) (n : Nat) :
    ∀ (rem : Nat) (s : St), rem ≤ n →
      s.task.progress ≤ 100 →
      (1 ≤ rem → s.task.progress ≤ progressOf (n - rem) n) →
      ProgPhase s (executeLoop env n rem s).1 := by
  intro rem
  induction rem with
  | zero =>
    intro s _ _ _
    unfold executeLoop
    exact progPhase_refl s
  | succ rem ih =>
    intro s hrem h100 hnext
    unfold executeLoop
    dsimp only
    obtain ⟨hExec, _⟩ := execute_step_execInv env (n - (rem + 1))
      ((stepOf s (n - (rem + 1))).max_retries + 1 - (stepOf s (n - (rem + 1))).retry_count) s
    cases hR1 : execute_step env (n - (rem + 1))
        ((stepOf s (n - (rem + 1))).max_retries + 1 -
          (stepOf s (n - (rem + 1))).retry_count) s with
    | mk s1 r1 =>
      rw [hR1] at hExec
      simp only at hExec
      have hP1 : ProgPhase s s1 := progPhase_of_execInv hExec
      have hp1 : s1.task.progress = s.task.progress := hExec.2.1
      cases r1 with
      | some e =>
        dsimp only
        exact hP1
      | none =>
        dsimp only
        have hq100 : progressOf (n - (rem + 1)) n ≤ 100 := by
          unfold progressOf
          exact mkRat_cent_le_100 (by omega)
        have hP2 : ProgPhase s1 (modTask s1 (fun t =>
            { t with progress := progressOf (n - (rem + 1)) n })) := by
          refine progPhase_up (modTask_trace _ _) ?_ ?_
          · simp only [modTask_task]
            rw [hp1]
            exact hnext (by omega)
          · simp only [modTask_task]
            exact hq100
        cases hS : save_task env (modTask s1 (fun t =>
            { t with progress := progressOf (n - (rem + 1)) n })) with
        | mk s3 r3 =>
          have hP3 : ProgPhase (modTask s1 (fun t =>
              { t with progress := progressOf (n - (rem + 1)) n })) s3 := by
            have h := progPhase_save env (modTask s1 (fun t =>
              { t with progress := progressOf (n - (rem + 1)) n }))
            rw [hS] at h
            exact h
          have htask3 : s3.task.progress = progressOf (n - (rem + 1)) n := by
            have h := save_task_task env (modTask s1 (fun t =>
              { t with progress := progressOf (n - (rem + 1)) n }))
            rw [hS] at h
            simp only [modTask_task] at h
            rw [h]
          cases r3 with
          | some e =>
            dsimp only
            exact progPhase_trans hP1 (progPhase_trans hP2 hP3)
          | none =>
            dsimp only
            by_cases hc : s3.task.status = AgentStatus.cancelled
            · rw [if_pos hc]
              exact progPhase_trans hP1 (progPhase_trans hP2 hP3)
            · rw [if_neg hc]
              have hrec := ih s3 (by omega) (by rw [htask3]; exact hq100) ?_
              · exact progPhase_trans hP1 (progPhase_trans hP2 (progPhase_trans hP3 hrec))
              · intro hrem1
                rw [htask3]
                unfold progressOf
                exact mkRat_cent_mono n (by omega)

theorem executeTail_progPhase (env : Env) (s3 : St) (h0 : s3.task.progress = 0) :
    ProgPhase s3 (executeTail env s3).1 := by
  unfold executeTail
  dsimp only
  have hloop := executeLoop_progPhase env s3.task.steps.length s3.task.steps.length s3
    (le_refl _) (by rw [h0]; norm_num)
    (fun _ => by
      rw [h0]
      unfold progressOf
      exact mkRat_cent_nonneg _ _)
  cases hL : executeLoop env s3.task.steps.length s3.task.steps.length s3 with
  | mk s4 r4 =>
    rw [hL] at hloop
    simp only at hloop
    cases r4 with
    | some e =>
      dsimp only
      exact hloop
    | none =>
      dsimp only
      have hP5 : ProgPhase s4 (if s4.task.status = AgentStatus.running
          then finalize_task (modTask s4 (fun t =>
            { t with status := AgentStatus.completed }))
          else s4) := by
        by_cases hst : s4.task.status = AgentStatus.running
        · rw [if_pos hst]
          exact progPhase_keep (by rw [finalize_task_trace, modTask_trace])
            (by rw [finalize_task_progress, modTask_task])
        · rw [if_neg hst]
          exact progPhase_refl s4
      cases hS : save_task env (if s4.task.status = AgentStatus.running
          then finalize_task (modTask s4 (fun t =>
            { t with status := AgentStatus.completed }))
          else s4) with
      | mk s6 r6 =>
        have hP6 : ProgPhase (if s4.task.status = AgentStatus.running
            then finalize_task (modTask s4 (fun t =>
              { t with status := AgentStatus.completed }))
            else s4) s6 := by
          have h := progPhase_save env (if s4.task.status = AgentStatus.running
            then finalize_task (modTask s4 (fun t =>
              { t with status := AgentStatus.completed }))
            else s4)
          rw [hS] at h
          exact h
        cases r6 with
        | some e => exact progPhase_trans hloop (progPhase_trans hP5 hP6)
        | none => exact progPhase_trans hloop (progPhase_trans hP5 hP6)

theorem executeBody_progPhase (env : Env) (s : St) (h0 : s.task.progress = 0) :
    ProgPhase s (executeBody env s).1 := by
  unfold executeBody
  dsimp only
  have hP1 : ProgPhase s (modTask s (fun t =>
      { t with status := AgentStatus.running })) :=
    progPhase_keep (modTask_trace _ _) (by simp only [modTask_task])
  cases hS : save_task env (modTask s (fun t =>
      { t with status := AgentStatus.running })) with
  | mk s2 r2 =>
    have hP2 : ProgPhase (modTask s (fun t =>
        { t with status := AgentStatus.running })) s2 := by
      have h := progPhase_save env (modTask s (fun t =>
        { t with status := AgentStatus.running }))
      rw [hS] at h
      exact h
    have hp2 : s2.task.progress = 0 := by
      have h := save_task_task env (modTask s (fun t =>
        { t with status := AgentStatus.running }))
      rw [hS] at h
      simp only [modTask_task] at h
      rw [h]
      exact h0
    cases r2 with
    | some e =>
      dsimp only
      exact progPhase_trans hP1 hP2
    | none =>
      dsimp only
      obtain ⟨hgt, hgp⟩ := generate_plan_keep env s2
      have hP3 : ProgPhase s2 (generate_plan env s2).1 := progPhase_keep hgt hgp
      have hp3 : (generate_plan env s2).1.task.progress = 0 := by rw [hgp, hp2]
      cases hG : generate_plan env s2 with
      | mk s3 r3 =>
        rw [hG] at hP3 hp3
        simp only at hP3 hp3
        cases r3 with
        | some e =>
          dsimp only
          exact progPhase_trans hP1 (progPhase_trans hP2 hP3)
        | none =>
          dsimp only
          exact progPhase_trans hP1 (progPhase_trans hP2 (progPhase_trans hP3
            (executeTail_progPhase env s3 hp3)))

theorem execute_progPhase (env : Env) (s : St) (h0 : s.task.progress = 0) :
    ProgPhase s (execute env s).1 := by
  unfold execute
  have hB := executeBody_progPhase env s h0
  cases hBe : executeBody env s with
  | mk s1 r1 =>
    rw [hBe] at hB
    simp only at hB
    cases r1 with
    | none =>
      dsimp only
      exact hB
    | some e =>
      dsimp only
      have hP2 : ProgPhase s1 (modTask s1 (fun t =>
          { t with status := AgentStatus.failed, error_message := some e })) :=
        progPhase_keep (modTask_trace _ _) (by simp only [modTask_task])
      cases hS : save_task env (modTask s1 (fun t =>
          { t with status := AgentStatus.failed, error_message := some e })) with
      | mk s3 r3 =>
        have hP3 : ProgPhase (modTask s1 (fun t =>
            { t with status := AgentStatus.failed, error_message := some e })) s3 := by
          have h := progPhase_save env (modTask s1 (fun t =>
            { t with status := AgentStatus.failed, error_message := some e }))
          rw [hS] at h
          exact h
        cases r3 with
        | some m => exact progPhase_trans hB (progPhase_trans hP2 hP3)
        | none => exact progPhase_trans hB (progPhase_trans hP2 hP3)

/-- C7: Across any engine run of a fresh task — regardless of planner,
executor, store or hub behaviour — every persisted snapshot has
`0 ≤ progress ≤ 100`, and the persisted progress values form a
non-decreasing chain from the initial 0. -/
theorem c7_progress_bounds_and_monotone {env : Env} (t : AgentTask)
    (hprog : t.progress = 0) :
    (∀ sn ∈ savesOf (execute_agent_task env t).trace,
      0 ≤ sn.progress ∧ sn.progress ≤ 100) ∧
    List.Chain qle 0 ((savesOf (execute_agent_task env t).trace).map
      (fun sn => sn.progress)) := by
  unfold execute_agent_task
  cases hca : create_agent t with
  | error m =>
    refine ⟨fun sn hsn => absurd hsn (by simp [initSt, savesOf]), ?_⟩
    have h : savesOf (initSt t).trace = [] := rfl
    rw [h]
    exact List.Chain.nil
  | ok u =>
    obtain ⟨d, htr, hch, _, hb⟩ := execute_progPhase env (initSt t) hprog
    have h0 : (initSt t).task.progress = 0 := hprog
    rw [h0] at hch hb
    have htr2 : (execute env (initSt t)).1.trace = d := by
      rw [htr]
      exact List.nil_append d
    rw [htr2]
    have hch2 : List.Chain qle 0 ((savesOf d).map (fun sn => sn.progress)) := hch
    refine ⟨fun sn hsn => ⟨?_, ?_⟩, hch2⟩
    · exact chain_qle_all hch2 sn.progress (List.mem_map_of_mem _ hsn)
    · exact (hb (by norm_num)).1 sn.progress (List.mem_map_of_mem _ hsn)

theorem c7_witness :
    sampleTask.progress = 0 ∧
    (0 ≤ c7snap.progress ∧ c7snap.progress ≤ 100) ∧
    List.Chain qle 0 ((savesOf (execute_agent_task env2 sampleTask).trace).map
      (fun sn => sn.progress)) :=
  ⟨rfl,
   (@c7_progress_bounds_and_monotone env2 sampleTask rfl).1 c7snap (by decide),
   (@c7_progress_bounds_and_monotone env2 sampleTask rfl).2⟩

end AgentService
